import Mathlib

/-!
Swish: job control of a small interactive shell.

A shallow embedding of `swish.c` and `swish_funcs.c`.

* The operating system is an oracle `OS`: the value returned by the n-th
  system call of the process is `os.ret n`, the wait status it stores is
  `os.status n`.  Every call is appended to a trace together with its result.
* A `job_t *` is the address of a node; the registry is the list of its nodes
  in link order, so `curr->next` is the address of the following node.
* Code whose behaviour C leaves undefined (a null or dangling pointer) returns
  `none`.

The definitions come first, the theorems after them.
-/

namespace Swish

/-! Definitions: system constants (Linux values of the system headers) -/

def STDIN_FILENO : Int := 0
def STDOUT_FILENO : Int := 1
def WUNTRACED : Int := 2
def SIGCONT : Int := 18
def SIGTTIN : Int := 21
def SIGTTOU : Int := 22
def O_RDONLY : Nat := 0
def O_WRONLY : Nat := 1
def O_CREAT : Nat := 64
def O_TRUNC : Nat := 512
def O_APPEND : Nat := 1024
def S_IRUSR : Nat := 256
def S_IWUSR : Nat := 128

/-- The macro `WIFSTOPPED(status)` of `<sys/wait.h>`: `(status & 0xff) == 0x7f`. -/
def WIFSTOPPED (status : Int) : Bool := status % 256 == 127

/-- The constant `MAX_ARGS` of `swish_funcs.c`. -/
def MAX_ARGS : Nat := 10

/-! Definitions: the process and its environment -/

/-- A `char *` cell of an argument array: not yet written, null, or a string. -/
inductive arg_t where
  | uninit
  | null
  | str (s : String)
  deriving DecidableEq, Repr

/-- One system call of the process, with its arguments and its result. -/
inductive Event where
  | setpgid (pid pgid ret : Int)
  | sigaction (signum ret : Int)
  | open_file (path : Option String) (flags mode : Nat) (ret : Int)
  | dup2 (oldfd newfd ret : Int)
  | close (fd ret : Int)
  | execvp (file : arg_t) (argv : List arg_t) (ret : Int)
  | getcwd (ret : Int)
  | chdir (path : Option String) (ret : Int)
  | tcsetpgrp (fd pgrp ret : Int)
  | kill (pid sig ret : Int)
  | waitpid (pid options ret status : Int)
  | fork (ret : Int)
  deriving DecidableEq, Repr

/-- One line written to standard error. -/
inductive ErrLine where
  | text (s : String)
  | perror (s : String)
  deriving DecidableEq, Repr

/-- A ghost record of one call `job_list_remove(jobs, idx)`: the index passed,
the address of the node standing at that index when the call is made, and the
address of the node the caller means to remove. -/
structure RemoveCall where
  idx : Nat
  at_idx : Option Nat
  target : Nat
  deriving DecidableEq, Repr

/-- The answers of the operating system: `ret n` is the return value of the
n-th system call, `status n` the wait status it writes on success, `uninit n`
the content of an uninitialised `int status` at that moment, `self_pid` the
value of `getpid()`, `cwd` the directory that `getcwd` reports and `home` the
value of `getenv("HOME")`. -/
structure OS where
  ret : Nat → Int
  status : Nat → Int
  uninit : Nat → Int
  self_pid : Int
  cwd : String
  home : Option String

/-- What the process has done so far. -/
structure Sys where
  trace : List Event
  err : List ErrLine
  out : List String
  removes : List RemoveCall
  deriving DecidableEq, Repr

def Sys.init : Sys := ⟨[], [], [], []⟩

def perror (s : Sys) (msg : String) : Sys :=
  { s with err := s.err ++ [ErrLine.perror msg] }

def eprint (s : Sys) (msg : String) : Sys :=
  { s with err := s.err ++ [ErrLine.text msg] }

def print (s : Sys) (msg : String) : Sys :=
  { s with out := s.out ++ [msg] }

/-- A system call whose only result is its return value. -/
def syscall (os : OS) (s : Sys) (mk : Int → Event) : Int × Sys :=
  let r := os.ret s.trace.length
  (r, { s with trace := s.trace ++ [mk r] })

/-- The content of an `int status` after the n-th system call, a `waitpid` that
was given its address: the wait status on success, and what the variable held
before when the call fails. -/
def wait_status (os : OS) (n : Nat) : Int :=
  if os.ret n = -1 then os.uninit n else os.status n

/-- The call `waitpid(pid, &status, options)` on a fresh `int status`: returns the
return value and the content of `status` afterwards. -/
def waitpid (os : OS) (s : Sys) (pid options : Int) : Int × Int × Sys :=
  let n := s.trace.length
  (os.ret n, wait_status os n,
    { s with trace := s.trace ++ [Event.waitpid pid options (os.ret n) (wait_status os n)] })

/-! Definitions: string_vector -/

abbrev strvec_t := List String

/-- Modelled from the spec: `string_vector.c` is not among the sources; the
spec calls this lookup-by-position. A position past the end gives `NULL`. -/
def strvec_get (vec : strvec_t) (i : Nat) : Option String := vec[i]?

/-- Modelled from the spec: `string_vector.c` is not among the sources; the
spec calls this find-by-value. The result is the first position holding the
string, or `-1`. -/
def strvec_find (vec : strvec_t) (s : String) : Int :=
  if s ∈ vec then (vec.indexOf s : Int) else -1

/-- Modelled from the spec: `string_vector.c` is not among the sources; the
spec calls this truncate-from-position. Only the first `n` strings are kept. -/
def strvec_take (vec : strvec_t) (n : Nat) : strvec_t := vec.take n

/-! Definitions: job_list -/

inductive job_status_t where
  | BACKGROUND
  | STOPPED
  deriving DecidableEq, Repr

open job_status_t

/-- A node of the job list. `addr` is the address of the node, the value of a
`job_t *` pointing at it; the `next` field is the address of the following
node of the list. -/
structure job_t where
  addr : Nat
  pid : Int
  name : String
  status : job_status_t
  deriving DecidableEq, Repr

/-- The job list, `head` first. -/
abbrev job_list_t := List job_t

/-- No two nodes of the list live at the same address. -/
def wf (jobs : job_list_t) : Prop := (jobs.map job_t.addr).Nodup

instance (jobs : job_list_t) : Decidable (wf jobs) := by
  unfold wf; infer_instance

/-- The value of `jobs->head`. -/
def head_ptr (jobs : job_list_t) : Option Nat := jobs.head?.map job_t.addr

/-- Dereference of a `job_t *`: the node at that address, if it is in the list. -/
def deref (jobs : job_list_t) (p : Nat) : Option job_t :=
  jobs.find? (fun j => j.addr == p)

/-- The value of `p->next`. -/
def next_ptr : job_list_t → Nat → Option Nat
  | [], _ => none
  | j :: js, p => if j.addr == p then head_ptr js else next_ptr js p

/-- The assignment `p->status = st`. -/
def store_status (jobs : job_list_t) (p : Nat) (st : job_status_t) : job_list_t :=
  jobs.map (fun j => if j.addr == p then { j with status := st } else j)

/-- Modelled from the spec: `job_list.c` is not among the sources; an address
that no node of the list occupies, for the node that `job_list_add` allocates. -/
def fresh_addr (jobs : job_list_t) : Nat := (jobs.map job_t.addr).foldr max 0 + 1

/-- Modelled from the spec: `job_list.c` is not among the sources; a new Job is
registered at the end of the ordered sequence. A null name cannot be copied. -/
def job_list_add (jobs : job_list_t) (pid : Int) (name : Option String)
    (status : job_status_t) : Option job_list_t :=
  match name with
  | none => none
  | some nm => some (jobs ++ [⟨fresh_addr jobs, pid, nm, status⟩])

/-- Modelled from the spec: `job_list.c` is not among the sources; the Job at a
display index, the zero-based position in the sequence, or `NULL` if absent. -/
def job_list_get (jobs : job_list_t) (idx : Int) : Option job_t :=
  if idx < 0 then none else jobs[idx.toNat]?

/-- Modelled from the spec: `job_list.c` is not among the sources; the Job at
the display index leaves the sequence and the later ones shift down. -/
def job_list_remove (jobs : job_list_t) (idx : Int) : job_list_t :=
  if idx < 0 then jobs else jobs.eraseIdx idx.toNat

/-- The ghost record of a call `job_list_remove(jobs, idx)` meant for node `p`. -/
def log_remove (s : Sys) (jobs : job_list_t) (idx : Int) (p : Nat) : Sys :=
  { s with removes := s.removes ++
      [⟨idx.toNat, (job_list_get jobs idx).map job_t.addr, p⟩] }

/-! Definitions: swish_funcs.c -/

/-- The predicate `isspace` of the C locale. -/
def isspace (c : Char) : Bool :=
  c == ' ' || c == '\t' || c == '\n' || c == '\x0b' || c == '\x0c' || c == '\r'

/-- The decimal digits at the front of a string, accumulated from `acc`. -/
def atoi_digits : List Char → Nat → Nat
  | [], acc => acc
  | c :: cs, acc => if c.isDigit then atoi_digits cs (10 * acc + (c.toNat - 48)) else acc

/-- The number that a string denotes for `strtol` in base 10: leading white
space, an optional sign, then decimal digits, up to the first other character. -/
def atoi_value (t : String) : Int :=
  match t.toList.dropWhile isspace with
  | '-' :: ds => - (atoi_digits ds 0 : Int)
  | '+' :: ds => (atoi_digits ds 0 : Int)
  | ds => (atoi_digits ds 0 : Int)

/-- The result of `strtol` for a number: a `long` of 64 bits, `LONG_MIN` or
`LONG_MAX` when the number is outside its range. -/
def strtol_clamp (v : Int) : Int :=
  if v < -9223372036854775808 then -9223372036854775808
  else if 9223372036854775807 < v then 9223372036854775807 else v

/-- The conversion of a `long` to an `int` of 32 bits: the value modulo 2^32
in the range of `int`. -/
def long_to_int (v : Int) : Int := (v + 2147483648) % 4294967296 - 2147483648

/-- The library function `atoi` as the C library of Linux defines it,
`(int) strtol(nptr, NULL, 10)`: a number that an `int` cannot hold is not
rejected, it wraps. The value is `none` for a null pointer. -/
def atoi (str : Option String) : Option Int :=
  match str with
  | none => none
  | some t => some (long_to_int (strtol_clamp (atoi_value t)))

/-- A string pointer as a cell of an argument array. -/
def to_arg : Option String → arg_t
  | none => arg_t.null
  | some t => arg_t.str t

/-- The loop `for (int i = 0; i < tokens->length && argc < MAX_ARGS; i++)` of
`run_command`, which writes `argv[argc++]`. The result is `none` when the fuel
is used up. -/
def argv_loop (tokens : strvec_t) : Nat → Nat → Nat → List arg_t → Option (Nat × List arg_t)
  | 0, _, _, _ => none
  | fuel + 1, i, argc, argv =>
    if i < tokens.length ∧ argc < MAX_ARGS then
      argv_loop tokens fuel (i + 1) (argc + 1) (argv.set argc (to_arg (strvec_get tokens i)))
    else some (argc, argv)

/-- The array `char *argv[MAX_ARGS + 1]` as `run_command` fills it, ending with
`argv[argc] = NULL`. -/
def build_argv (tokens : strvec_t) : Option (List arg_t) :=
  match argv_loop tokens (MAX_ARGS + 1) 0 0 (List.replicate (MAX_ARGS + 1) arg_t.uninit) with
  | none => none
  | some (argc, argv) => some (argv.set argc arg_t.null)

/-- The argument vector that `exec` reads from an array: the cells up to the
first null one, and that null cell. -/
def exec_args : List arg_t → List arg_t
  | [] => []
  | arg_t.null :: _ => [arg_t.null]
  | a :: as => a :: exec_args as

/-- How a call of `run_command` ends: it returns a value, or `execvp` replaces
the process image and the function never returns. -/
inductive run_result where
  | returned (code : Int)
  | replaced
  deriving DecidableEq, Repr

/-- The input redirection of `run_command`: `some code` when the function
returns early, and the token vector afterwards. -/
def redirect_input (os : OS) (tokens : strvec_t) (s : Sys) : Option Int × strvec_t × Sys :=
  let in_index := strvec_find tokens "<"
  if in_index ≠ -1 ∧ in_index + 1 < tokens.length then
    let in_file := strvec_get tokens (in_index + 1).toNat
    match syscall os s (Event.open_file in_file O_RDONLY 0) with
    | (in_fd, s1) =>
      if in_fd = -1 then (some (-1), tokens, perror s1 "Failed to open input file")
      else
        match syscall os s1 (Event.dup2 in_fd STDIN_FILENO) with
        | (r, s2) =>
          if r = -1 then
            (some (-1), tokens, (syscall os (perror s2 "dup2 (input)") (Event.close in_fd)).2)
          else
            (none, strvec_take (strvec_take tokens (in_index + 1).toNat) in_index.toNat,
              (syscall os s2 (Event.close in_fd)).2)
  else (none, tokens, s)

/-- The output redirection of `run_command`. -/
def redirect_output (os : OS) (tokens : strvec_t) (s : Sys) : Option Int × strvec_t × Sys :=
  let out_index := strvec_find tokens ">"
  let append_index := strvec_find tokens ">>"
  let redir_index : Int :=
    if out_index ≠ -1 then out_index else if append_index ≠ -1 then append_index else -1
  let use_append : Bool :=
    if out_index ≠ -1 then false else if append_index ≠ -1 then true else false
  if redir_index ≠ -1 ∧ redir_index + 1 < tokens.length then
    let out_file := strvec_get tokens (redir_index + 1).toNat
    let flags := (O_CREAT ||| O_WRONLY) ||| (if use_append then O_APPEND else O_TRUNC)
    match syscall os s (Event.open_file out_file flags (S_IRUSR ||| S_IWUSR)) with
    | (out_fd, s1) =>
      if out_fd = -1 then (some (-1), tokens, perror s1 "Failed to open output file")
      else
        match syscall os s1 (Event.dup2 out_fd STDOUT_FILENO) with
        | (r, s2) =>
          if r = -1 then
            (some (-1), tokens, (syscall os (perror s2 "dup2 (output)") (Event.close out_fd)).2)
          else
            (none, strvec_take (strvec_take tokens (redir_index + 1).toNat) redir_index.toNat,
              (syscall os s2 (Event.close out_fd)).2)
  else (none, tokens, s)

/-- The two redirections of `run_command`, one after the other. -/
def redirect_both (os : OS) (tokens : strvec_t) (s : Sys) : Option Int × strvec_t × Sys :=
  match redirect_input os tokens s with
  | (some code, tokens1, s3) => (some code, tokens1, s3)
  | (none, tokens1, s3) => redirect_output os tokens1 s3

/-- The part of `run_command` before the argument array is built: the check
for an empty command, the process group, the signal dispositions and the two
redirections. `some code` means that the function returns there. -/
def run_setup (os : OS) (tokens : strvec_t) (s : Sys) : Option Int × strvec_t × Sys :=
  if tokens.length = 0 then
    (some (-1), tokens, eprint s "run_command: empty command\n")
  else
    match syscall os s (Event.setpgid 0 0) with
    | (r0, s0) =>
      if r0 = -1 then (some (-1), tokens, perror s0 "setpgid")
      else
        match syscall os s0 (Event.sigaction SIGTTOU) with
        | (r1, s1) =>
          match (if r1 = -1 then (r1, s1) else syscall os s1 (Event.sigaction SIGTTIN)) with
          | (r2, s2) =>
            if r2 = -1 then (some (-1), tokens, perror s2 "sigaction")
            else redirect_both os tokens s2

/-- The function `run_command`. The token vector is changed in place, so it is
returned too. -/
def run_command (os : OS) (tokens : strvec_t) (s : Sys) :
    Option (run_result × strvec_t × Sys) :=
  match run_setup os tokens s with
  | (some code, tokens2, s4) => some (run_result.returned code, tokens2, s4)
  | (none, tokens2, s4) =>
    match build_argv tokens2 with
    | none => none
    | some argv =>
      match syscall os s4 (Event.execvp (argv.headD arg_t.uninit) (exec_args argv)) with
      | (r5, s5) =>
        if r5 = -1 then some (run_result.returned (-1), tokens2, perror s5 "exec")
        else some (run_result.replaced, tokens2, s5)

/-- The function `resume_job`. -/
def resume_job (os : OS) (tokens : strvec_t) (jobs : job_list_t) (is_foreground : Int)
    (s : Sys) : Option (Int × job_list_t × Sys) :=
  if tokens.length < 2 then
    some (-1, jobs, eprint s "resume_job: missing index\n")
  else
    match atoi (strvec_get tokens 1) with
    | none => none
    | some idx =>
      match job_list_get jobs idx with
      | none => some (-1, jobs, eprint s "Job index out of bounds\n")
      | some job =>
        match (if is_foreground ≠ 0 then syscall os s (Event.tcsetpgrp STDIN_FILENO job.pid)
               else (0, s)) with
        | (r1, s1) =>
          if r1 = -1 then some (-1, jobs, perror s1 "tcsetpgrp")
          else
            match syscall os s1 (Event.kill job.pid SIGCONT) with
            | (r2, s2) =>
              if r2 = -1 then some (-1, jobs, perror s2 "kill")
              else if is_foreground ≠ 0 then
                match waitpid os s2 job.pid WUNTRACED with
                | (r3, status, s3) =>
                  if r3 = -1 then some (-1, jobs, perror s3 "waitpid")
                  else
                    match (if !WIFSTOPPED status then
                             (job_list_remove jobs idx, log_remove s3 jobs idx job.addr)
                           else (store_status jobs job.addr STOPPED, s3)) with
                    | (jobs1, s4) =>
                      match syscall os s4 (Event.tcsetpgrp STDIN_FILENO os.self_pid) with
                      | (r5, s5) =>
                        if r5 = -1 then some (-1, jobs1, perror s5 "tcsetpgrp (restore shell)")
                        else some (0, jobs1, s5)
              else some (0, store_status jobs job.addr BACKGROUND, s2)

/-- The function `await_background_job`. -/
def await_background_job (os : OS) (tokens : strvec_t) (jobs : job_list_t) (s : Sys) :
    Option (Int × job_list_t × Sys) :=
  if tokens.length < 2 then
    some (-1, jobs, eprint s "wait-for: missing index\n")
  else
    match atoi (strvec_get tokens 1) with
    | none => none
    | some index =>
      match job_list_get jobs index with
      | none => some (-1, jobs, eprint s "Job index out of bounds\n")
      | some job =>
        if job.status ≠ BACKGROUND then
          some (-1, jobs,
            eprint s "Job index is for stopped process not background process\n")
        else
          match waitpid os s job.pid WUNTRACED with
          | (r, status, s1) =>
            if r = -1 then some (-1, jobs, perror s1 "waitpid")
            else if !WIFSTOPPED status then
              some (0, job_list_remove jobs index, log_remove s1 jobs index job.addr)
            else some (0, store_status jobs job.addr STOPPED, s1)

/-- The loop of `await_all_background_jobs`; `idx` is an `unsigned`. -/
def await_all_loop (os : OS) :
    Nat → job_list_t → Option Nat → Nat → Sys → Option (Int × job_list_t × Sys)
  | _, jobs, none, _, s => some (0, jobs, s)
  | 0, _, some _, _, _ => none
  | fuel + 1, jobs, some curr, idx, s =>
    match deref jobs curr with
    | none => none
    | some node =>
      let next := next_ptr jobs curr
      if node.status = BACKGROUND then
        match waitpid os s node.pid WUNTRACED with
        | (r, status, s1) =>
          if r = -1 then
            some (-1, jobs, perror s1 "waitpid")
          else if WIFSTOPPED status then
            await_all_loop os fuel (store_status jobs curr STOPPED) next
              ((idx + 1) % 2 ^ 32) s1
          else
            await_all_loop os fuel (job_list_remove jobs idx) next idx
              (log_remove s1 jobs idx curr)
      else
        await_all_loop os fuel jobs next ((idx + 1) % 2 ^ 32) s

/-- The function `await_all_background_jobs`: one turn of the loop per node. -/
def await_all_background_jobs (os : OS) (jobs : job_list_t) (s : Sys) :
    Option (Int × job_list_t × Sys) :=
  await_all_loop os jobs.length jobs (head_ptr jobs) 0 s

/-! Definitions: swish.c -/

def PROMPT : String := "@> "

/-- How one turn of the loop of `main` ends: the loop goes on, the process
terminates with a code, or the process image has been replaced by `exec`. -/
inductive ctl_t where
  | next
  | stop (code : Int)
  | replaced
  deriving DecidableEq, Repr

/-- The loop of the `jobs` built-in. -/
def print_jobs : job_list_t → Nat → Sys → Sys
  | [], _, s => s
  | j :: js, i, s =>
    print_jobs js (i + 1)
      (print s (toString i ++ ": " ++ j.name ++ " (" ++
        (if j.status = BACKGROUND then "background" else "stopped") ++ ")\n"))

/-- The child branch of the launch step: `run_command`, then `exit`. -/
def launch_child (os : OS) (tokens : strvec_t) (jobs : job_list_t) (s : Sys) :
    Option (ctl_t × job_list_t × Sys) :=
  match run_command os tokens s with
  | none => none
  | some (run_result.returned code, _, s1) =>
    some (ctl_t.stop (if code = -1 then 1 else 0), jobs, s1)
  | some (run_result.replaced, _, s1) => some (ctl_t.replaced, jobs, s1)

/-- The last branch of the dispatch in `main`: the launch of a command that is
not a built-in. -/
def launch (os : OS) (tokens : strvec_t) (jobs : job_list_t) (s : Sys) :
    Option (ctl_t × job_list_t × Sys) :=
  match strvec_get tokens (tokens.length - 1) with
  | none => none
  | some last =>
    let run_in_background : Bool := last == "&"
    let tokens1 := if run_in_background then strvec_take tokens (tokens.length - 1) else tokens
    match syscall os s Event.fork with
    | (pid, s1) =>
      if pid < 0 then some (ctl_t.next, jobs, perror s1 "fork")
      else if pid = 0 then launch_child os tokens1 jobs s1
      else if run_in_background then
        match job_list_add jobs pid (strvec_get tokens1 0) BACKGROUND with
        | none => none
        | some jobs1 => some (ctl_t.next, jobs1, s1)
      else
        match syscall os s1 (Event.tcsetpgrp STDIN_FILENO pid) with
        | (r1, s2) =>
          match waitpid os (if r1 = -1 then perror s2 "tcsetpgrp (child fg)" else s2)
              pid WUNTRACED with
          | (r2, status, s3) =>
            match syscall os (if r2 = -1 then perror s3 "waitpid" else s3)
                (Event.tcsetpgrp STDIN_FILENO os.self_pid) with
            | (r3, s4) =>
              if WIFSTOPPED status then
                match job_list_add jobs pid (strvec_get tokens1 0) STOPPED with
                | none => none
                | some jobs1 =>
                  some (ctl_t.next, jobs1,
                    if r3 = -1 then perror s4 "tcsetpgrp (shell fg)" else s4)
              else
                some (ctl_t.next, jobs,
                  if r3 = -1 then perror s4 "tcsetpgrp (shell fg)" else s4)

/-- The end of a turn of the loop: `strvec_clear(&tokens); printf("%s", PROMPT);`. -/
def end_turn : Option (ctl_t × job_list_t × Sys) → Option (ctl_t × job_list_t × Sys)
  | some (ctl_t.next, jobs, s) => some (ctl_t.next, jobs, print s PROMPT)
  | r => r

/-- A built-in that calls one of the job functions and prints a line when the
function returns -1. -/
def builtin (r : Option (Int × job_list_t × Sys)) (msg : String) :
    Option (ctl_t × job_list_t × Sys) :=
  match r with
  | none => none
  | some (code, jobs, s) => some (ctl_t.next, jobs, if code = -1 then print s msg else s)

/-- One turn of the loop of `main`, from the tokens of the line that was read. -/
def main_body (os : OS) (tokens : strvec_t) (jobs : job_list_t) (s : Sys) :
    Option (ctl_t × job_list_t × Sys) :=
  if tokens.length = 0 then some (ctl_t.next, jobs, print s PROMPT)
  else
    match strvec_get tokens 0 with
    | none => none
    | some first_token =>
      if first_token = "pwd" then
        match syscall os s Event.getcwd with
        | (r, s1) =>
          end_turn (some (ctl_t.next, jobs,
            if r = 0 then perror s1 "getcwd" else print s1 (os.cwd ++ "\n")))
      else if first_token = "cd" then
        if tokens.length = 1 ∧ os.home = none then
          some (ctl_t.next, jobs, print (eprint s "cd: HOME not set\n") PROMPT)
        else
          match syscall os s
              (Event.chdir (if tokens.length = 1 then os.home else strvec_get tokens 1)) with
          | (r, s1) =>
            end_turn (some (ctl_t.next, jobs, if r ≠ 0 then perror s1 "chdir" else s1))
      else if first_token = "exit" then some (ctl_t.stop 0, jobs, s)
      else if first_token = "jobs" then end_turn (some (ctl_t.next, jobs, print_jobs jobs 0 s))
      else if first_token = "fg" then
        end_turn (builtin (resume_job os tokens jobs 1 s) "Failed to resume job in foreground\n")
      else if first_token = "bg" then
        end_turn (builtin (resume_job os tokens jobs 0 s) "Failed to resume job in background\n")
      else if first_token = "wait-for" then
        end_turn (builtin (await_background_job os tokens jobs s)
          "Failed to wait for background job\n")
      else if first_token = "wait-all" then
        end_turn (builtin (await_all_background_jobs os jobs s)
          "Failed to wait for all background jobs\n")
      else end_turn (launch os tokens jobs s)

/-- The loop of `main` over the lines that are read, given as token vectors;
at the end of the input `main` returns 0. -/
def main_loop (os : OS) : List strvec_t → job_list_t → Sys → Option (ctl_t × job_list_t × Sys)
  | [], jobs, s => some (ctl_t.stop 0, jobs, s)
  | tokens :: rest, jobs, s =>
    match main_body os tokens jobs s with
    | some (ctl_t.next, jobs1, s1) => main_loop os rest jobs1 s1
    | r => r

/-- The built-in commands of the shell. -/
def builtins : List String := ["pwd", "cd", "exit", "jobs", "fg", "bg", "wait-for", "wait-all"]

/-! Definitions: reference functions written from the spec, and concrete inputs -/

/-- The reference behaviour of `await_all_background_jobs` on the sequence of
jobs: `pre` holds the jobs already visited and kept, `rest` the jobs still to
visit. Each `BACKGROUND` job is waited on; on a stop it is kept as `STOPPED`,
on an exit it is dropped; a `STOPPED` job is kept as it is. -/
def await_all_ref (os : OS) : job_list_t → job_list_t → Sys → Int × job_list_t × Sys
  | pre, [], s => (0, pre, s)
  | pre, c :: rest, s =>
    if c.status = BACKGROUND then
      match waitpid os s c.pid WUNTRACED with
      | (r, status, s1) =>
        if r = -1 then
          (-1, pre ++ c :: rest, perror s1 "waitpid")
        else if WIFSTOPPED status then
          await_all_ref os (pre ++ [{ c with status := STOPPED }]) rest s1
        else
          await_all_ref os pre rest (log_remove s1 (pre ++ c :: rest) pre.length c.addr)
    else
      await_all_ref os (pre ++ [c]) rest s

/-- The Registry that the spec prescribes after `wait-all` when every wait
succeeds; `n` is the number of system calls made before, so the k-th
`BACKGROUND` job of the sequence receives the outcome `os.status (n + k)`. -/
def await_all_spec (os : OS) : Nat → job_list_t → job_list_t
  | _, [] => []
  | n, j :: js =>
    if j.status = BACKGROUND then
      if WIFSTOPPED (os.status n) then
        { j with status := STOPPED } :: await_all_spec os (n + 1) js
      else await_all_spec os (n + 1) js
    else j :: await_all_spec os n js

/-- The wait calls that the spec prescribes for `wait-all`: one for each
`BACKGROUND` job, in order, none for a `STOPPED` job. -/
def await_all_waits (os : OS) : Nat → job_list_t → List Event
  | _, [] => []
  | n, j :: js =>
    if j.status = BACKGROUND then
      Event.waitpid j.pid WUNTRACED (os.ret n) (os.status n) :: await_all_waits os (n + 1) js
    else await_all_waits os n js

/-- The removals that the spec prescribes for `wait-all`: one for each
`BACKGROUND` job whose wait reports an exit, at the position `k` that the job
has at that moment. -/
def await_all_removes (os : OS) : Nat → Nat → job_list_t → List RemoveCall
  | _, _, [] => []
  | n, k, j :: js =>
    if j.status = BACKGROUND then
      if WIFSTOPPED (os.status n) then await_all_removes os (n + 1) (k + 1) js
      else ⟨k, some j.addr, j.addr⟩ :: await_all_removes os (n + 1) k js
    else await_all_removes os n (k + 1) js

/-- An operating system on which every call returns 7, the first wait reports a
stop and the later ones an exit; the shell has process identifier 100. -/
def os_demo : OS :=
  ⟨fun _ => 7, fun n => if n = 0 then 127 else 0, fun _ => 0, 100, "/", some "/root"⟩

/-- An operating system on which every call returns 7 and every wait reports a
stop. -/
def os_stop : OS := ⟨fun _ => 7, fun _ => 127, fun _ => 0, 100, "/", some "/root"⟩

/-- An operating system on which every system call fails. -/
def os_fail : OS := ⟨fun _ => -1, fun _ => 0, fun _ => 0, 100, "/", none⟩

/-- A Registry of three jobs: background, stopped, background. -/
def jobs_demo : job_list_t :=
  [⟨1, 11, "a", BACKGROUND⟩, ⟨2, 12, "b", STOPPED⟩, ⟨3, 13, "c", BACKGROUND⟩]

/-- The argument array after `argc` cells have been written. -/
def argv_after (tokens : strvec_t) (argc : Nat) : List arg_t :=
  (tokens.take argc).map arg_t.str ++ List.replicate (MAX_ARGS + 1 - argc) arg_t.uninit

/-- The state of the process after the call of `execvp` with the argument
vector built from `tokens2`. -/
def after_exec (os : OS) (tokens2 : strvec_t) (s4 : Sys) : Sys :=
  { s4 with
    trace := s4.trace ++
      [Event.execvp (to_arg tokens2.head?)
        ((tokens2.take MAX_ARGS).map arg_t.str ++ [arg_t.null]) (os.ret s4.trace.length)] }

/-- A command with an input and an output redirection. -/
def tokens_redir : strvec_t := ["cat", "-n", "<", "in", ">", "out"]

/-- A command of twelve tokens. -/
def tokens_long : strvec_t := ["e", "1", "2", "3", "4", "5", "6", "7", "8", "9", "10", "11"]

/-- The first three system calls of `run_command`, all successful. -/
def setup_trace : List Event :=
  [Event.setpgid 0 0 7, Event.sigaction SIGTTOU 7, Event.sigaction SIGTTIN 7]

/-- The system calls of a foreground resume of the job with process identifier
`pid`, when none of them fails, the first call being the n-th of the process. -/
def resume_calls (os : OS) (n : Nat) (pid : Int) : List Event :=
  [Event.tcsetpgrp STDIN_FILENO pid (os.ret n),
   Event.kill pid SIGCONT (os.ret (n + 1)),
   Event.waitpid pid WUNTRACED (os.ret (n + 2)) (wait_status os (n + 2)),
   Event.tcsetpgrp STDIN_FILENO os.self_pid (os.ret (n + 3))]

/-- The system calls of a foreground launch in the parent, the fork being the
n-th call of the process. -/
def launch_calls (os : OS) (n : Nat) : List Event :=
  [Event.fork (os.ret n),
   Event.tcsetpgrp STDIN_FILENO (os.ret n) (os.ret (n + 1)),
   Event.waitpid (os.ret n) WUNTRACED (os.ret (n + 2)) (wait_status os (n + 2)),
   Event.tcsetpgrp STDIN_FILENO os.self_pid (os.ret (n + 3))]

/-- The number of system calls that a foreground resume makes: it stops at the
first of the transfer, the signal and the wait that fails. -/
def resume_call_count (os : OS) (n : Nat) : Nat :=
  if os.ret n = -1 then 1 else if os.ret (n + 1) = -1 then 2
  else if os.ret (n + 2) = -1 then 3 else 4

/-- The redirection operators. -/
def is_redir (t : String) : Bool := t == "<" || t == ">" || t == ">>"

/-- Every redirection operator of the list is followed by a token, and that
token is not itself a redirection operator (it is a filename). -/
def filenames_follow : strvec_t → Bool
  | [] => true
  | t :: rest =>
    (if is_redir t then
      (match rest with
       | [] => false
       | f :: _ => !is_redir f)
     else true) && filenames_follow rest

/-- The first redirection operator of the list is `>>` and a `>` stands after
it, before the first `<`: the code then redirects to the file of the `>` and
leaves the `>>` where it is. -/
def append_shadowed (tokens : strvec_t) : Bool :=
  match tokens.dropWhile (fun t => !is_redir t) with
  | o :: _ => o == ">>" && decide (">" ∈ tokens.takeWhile (fun t => t != "<"))
  | [] => false

/-- The tokens of a command that are neither a redirection operator nor the
token that follows one, in their order. -/
def strip_redir : strvec_t → strvec_t
  | [] => []
  | [t] => if is_redir t then [] else [t]
  | t :: f :: rest => if is_redir t then strip_redir rest else t :: strip_redir (f :: rest)

/-- The events of a successful redirection, the `open` being the n-th call. -/
def redirect_events (os : OS) (n : Nat) (file : String) (flags mode : Nat) (fd : Int) :
    List Event :=
  [Event.open_file (some file) flags mode (os.ret n), Event.dup2 (os.ret n) fd (os.ret (n + 1)),
   Event.close (os.ret n) (os.ret (n + 2))]

/-! Definitions: the children of the shell that have not been reaped -/

/-- The effect of one system call on the list of unreaped children: a fork in
the parent adds the child, a successful wait that reports no stop reaps the
process waited on. -/
def reap_step (ch : List Int) : Event → List Int
  | Event.fork r => if 0 < r then r :: ch else ch
  | Event.waitpid pid _ r st =>
    if r ≠ -1 ∧ WIFSTOPPED st = false then ch.filter (fun p => p ≠ pid) else ch
  | _ => ch

/-- The unreaped children after a trace of system calls. -/
def children (tr : List Event) : List Int := tr.foldl reap_step []

/-- Every fork of the trace that returns in the parent returns a process
identifier that no unreaped child holds at that moment; `ch` is the list of
unreaped children before the trace. -/
def fresh_from (ch : List Int) : List Event → Bool
  | [] => true
  | e :: es =>
    (match e with
     | Event.fork r => decide (0 < r → r ∉ ch)
     | _ => true) && fresh_from (reap_step ch e) es

/-- A system call that leaves the list of unreaped children as it is: no fork
in the parent and no wait that reaps. -/
def quiet : Event → Bool
  | Event.fork r => decide (r ≤ 0)
  | Event.waitpid _ _ r st => decide (r = -1) || WIFSTOPPED st
  | _ => true

/-- No two jobs share a process identifier and every job is an unreaped child. -/
def Inv2 (jobs : job_list_t) (tr : List Event) : Prop :=
  (jobs.map job_t.pid).Nodup ∧ ∀ j ∈ jobs, j.pid ∈ children tr

/-- One operation of the shell takes the Registry `jobs` and the trace `tr` to
`jobs'` and `tr'`: the trace grows, distinct addresses stay distinct, at most
`k` jobs are added, and the invariant on process identifiers is kept as long
as the forks of the operation return fresh identifiers. -/
def StepP (k : Nat) (jobs : job_list_t) (tr : List Event) (jobs' : job_list_t)
    (tr' : List Event) : Prop :=
  ∃ evs, tr' = tr ++ evs ∧ (wf jobs → wf jobs') ∧ jobs'.length ≤ jobs.length + k ∧
    (fresh_from (children tr) evs = true → Inv2 jobs tr → Inv2 jobs' tr')

/-- The property `StepP` of the result of an operation; nothing is said where
the behaviour of the operation is undefined. -/
def StepR {α : Type} (k : Nat) (jobs : job_list_t) (tr : List Event) :
    Option (α × job_list_t × Sys) → Prop
  | none => True
  | some (_, jobs', s') => StepP k jobs tr jobs' s'.trace

/-- The trace `tr'` extends `tr` by system calls that reap nothing. -/
def QExt (tr tr' : List Event) : Prop := ∃ evs, tr' = tr ++ evs ∧ ∀ e ∈ evs, quiet e = true

/-- A command line on which the behaviour of the loop body is defined: it is
not the lone token `&`, whose launch passes a null name to `job_list_add`. -/
def defined_cmd (tokens : strvec_t) : Prop := tokens ≠ ["&"]

instance : DecidablePred defined_cmd := fun t => by
  unfold defined_cmd; infer_instance

/-- An operating system that gives the n-th system call the return value
`n + 10`, so every fork returns a new process identifier; the call number 3
reports a stop, every other wait an exit. -/
def os_pids : OS :=
  ⟨fun n => n + 10, fun n => if n = 3 then 127 else 0, fun _ => 0, 100, "/", some "/root"⟩

/-- Four command lines: a background launch, a foreground launch that stops,
its resume in the foreground, another background launch. -/
def cmds_demo : List strvec_t := [["sleep", "5", "&"], ["vi"], ["fg", "1"], ["top", "&"]]

/-- The state of the process after `cmds_demo` on `os_pids`. -/
def sys_demo : Sys :=
  ⟨[Event.fork 10, Event.fork 11, Event.tcsetpgrp 0 11 12, Event.waitpid 11 2 13 127,
    Event.tcsetpgrp 0 100 14, Event.tcsetpgrp 0 11 15, Event.kill 11 18 16,
    Event.waitpid 11 2 17 0, Event.tcsetpgrp 0 100 18, Event.fork 19],
   [], ["@> ", "@> ", "@> ", "@> "], [⟨1, some 2, 2⟩]⟩

/-! Theorems -/

theorem wf_append_cons {pre rest : job_list_t} {c : job_t} (h : wf (pre ++ c :: rest)) :
    (∀ j ∈ pre, j.addr ≠ c.addr) ∧ (∀ j ∈ rest, j.addr ≠ c.addr) := by
  unfold wf at h
  rw [List.map_append, List.map_cons, List.nodup_append] at h
  obtain ⟨_, h2, h3⟩ := h
  rw [List.nodup_cons] at h2
  refine ⟨fun j hj e => ?_, fun j hj e => ?_⟩
  · exact h3 (List.mem_map_of_mem _ hj) (by rw [e]; exact List.mem_cons_self _ _)
  · exact h2.1 (by rw [← e]; exact List.mem_map_of_mem _ hj)

theorem deref_append_cons {pre rest : job_list_t} {c : job_t} (h : wf (pre ++ c :: rest)) :
    deref (pre ++ c :: rest) c.addr = some c := by
  have hp := (wf_append_cons h).1
  clear h
  induction pre with
  | nil => simp [deref]
  | cons a pre ih =>
    have ha : a.addr ≠ c.addr := hp a (List.mem_cons_self _ _)
    have := ih (fun j hj => hp j (List.mem_cons_of_mem _ hj))
    have hb : (a.addr == c.addr) = false := by simpa using ha
    simp only [deref] at this ⊢
    simp only [List.cons_append, List.find?, hb]
    exact this

theorem next_ptr_append_cons {pre rest : job_list_t} {c : job_t} (h : wf (pre ++ c :: rest)) :
    next_ptr (pre ++ c :: rest) c.addr = head_ptr rest := by
  have hp := (wf_append_cons h).1
  clear h
  induction pre with
  | nil => simp [next_ptr]
  | cons a pre ih =>
    have ha : a.addr ≠ c.addr := hp a (List.mem_cons_self _ _)
    have := ih (fun j hj => hp j (List.mem_cons_of_mem _ hj))
    simp [next_ptr, ha, this]

theorem store_status_append_cons {pre rest : job_list_t} {c : job_t}
    (h : wf (pre ++ c :: rest)) (st : job_status_t) :
    store_status (pre ++ c :: rest) c.addr st = pre ++ { c with status := st } :: rest := by
  obtain ⟨hp, hr⟩ := wf_append_cons h
  have key : ∀ l : job_list_t, (∀ j ∈ l, j.addr ≠ c.addr) → store_status l c.addr st = l := by
    intro l hl
    unfold store_status
    conv_rhs => rw [← List.map_id l]
    apply List.map_congr_left
    intro j hj
    simp [hl j hj]
  have e : store_status (pre ++ c :: rest) c.addr st
      = store_status pre c.addr st ++ { c with status := st } :: store_status rest c.addr st := by
    simp [store_status]
  rw [e, key pre hp, key rest hr]

theorem job_list_remove_append_cons (pre rest : job_list_t) (c : job_t) :
    job_list_remove (pre ++ c :: rest) (pre.length : Int) = pre ++ rest := by
  unfold job_list_remove
  have : ¬ ((pre.length : Int) < 0) := by omega
  simp only [this, if_false, Int.toNat_ofNat]
  induction pre with
  | nil => simp
  | cons a pre ih => simpa using ih

theorem job_list_get_append_cons (pre rest : job_list_t) (c : job_t) :
    job_list_get (pre ++ c :: rest) (pre.length : Int) = some c := by
  unfold job_list_get
  have : ¬ ((pre.length : Int) < 0) := by omega
  simp only [this, if_false, Int.toNat_ofNat]
  rw [List.getElem?_append_right (le_refl _)]
  simp

theorem wf_store {pre rest : job_list_t} {c : job_t} (h : wf (pre ++ c :: rest))
    (st : job_status_t) : wf ((pre ++ [{ c with status := st }]) ++ rest) := by
  unfold wf at h ⊢
  simpa using h

theorem wf_keep {pre rest : job_list_t} {c : job_t} (h : wf (pre ++ c :: rest)) :
    wf ((pre ++ [c]) ++ rest) := by
  unfold wf at h ⊢
  simpa using h

theorem wf_drop {pre rest : job_list_t} {c : job_t} (h : wf (pre ++ c :: rest)) :
    wf (pre ++ rest) := by
  unfold wf at h ⊢
  rw [List.map_append, List.map_cons] at h
  rw [List.map_append]
  exact h.sublist (List.Sublist.append_left (List.sublist_cons_self _ _) _)

/-- The loop of the code computes the reference behaviour: the saved `next`
pointer is the head of the jobs still to visit and `idx` is the number of jobs
visited and kept. -/
theorem await_all_loop_eq (os : OS) (rest : job_list_t) :
    ∀ (pre : job_list_t) (fuel : Nat) (s : Sys), wf (pre ++ rest) →
      (pre ++ rest).length < 2 ^ 32 → rest.length ≤ fuel →
      await_all_loop os fuel (pre ++ rest) (head_ptr rest) pre.length s
        = some (await_all_ref os pre rest s) := by
  induction rest with
  | nil =>
    intro pre fuel s _ _ _
    cases fuel <;> simp [head_ptr, await_all_loop, await_all_ref]
  | cons c rest ih =>
    intro pre fuel s hwf hlen hfuel
    cases fuel with
    | zero => simp at hfuel
    | succ fuel =>
      have hfuel2 : rest.length ≤ fuel := by simpa using hfuel
      have hl : pre.length + 1 < 2 ^ 32 := by
        simp only [List.length_append, List.length_cons] at hlen; omega
      have hmod : (pre.length + 1) % 2 ^ 32 = (pre ++ [c]).length := by
        rw [Nat.mod_eq_of_lt hl]; simp
      have hmod2 : ∀ st : job_status_t,
          (pre.length + 1) % 2 ^ 32 = (pre ++ [{ c with status := st }]).length := by
        intro st; rw [Nat.mod_eq_of_lt hl]; simp
      have hhead : head_ptr (c :: rest) = some c.addr := rfl
      rw [hhead]
      simp only [await_all_loop, deref_append_cons hwf, next_ptr_append_cons hwf,
        await_all_ref]
      by_cases hb : c.status = BACKGROUND
      · simp only [hb, if_true]
        by_cases hr : (waitpid os s c.pid WUNTRACED).1 = -1
        · simp [hr]
        · simp only [hr, if_false]
          by_cases hs : WIFSTOPPED (waitpid os s c.pid WUNTRACED).2.1 = true
          · simp only [hs, if_true]
            rw [store_status_append_cons hwf, hmod2 STOPPED]
            have e : pre ++ { c with status := STOPPED } :: rest
                = (pre ++ [{ c with status := STOPPED }]) ++ rest := by simp
            rw [e]
            exact ih _ fuel _ (wf_store hwf STOPPED) (by simpa using hlen) hfuel2
          · simp only [hs]
            rw [job_list_remove_append_cons]
            exact ih pre fuel _ (wf_drop hwf)
              (by simp only [List.length_append, List.length_cons] at hlen ⊢; omega) hfuel2
      · simp only [hb, if_false]
        rw [hmod]
        have e : pre ++ c :: rest = (pre ++ [c]) ++ rest := by simp
        rw [e]
        exact ih _ fuel _ (wf_keep hwf) (by simpa using hlen) hfuel2

theorem await_all_eq_ref (os : OS) (jobs : job_list_t) (s : Sys) (hwf : wf jobs)
    (hlen : jobs.length < 2 ^ 32) :
    await_all_background_jobs os jobs s = some (await_all_ref os [] jobs s) := by
  have := await_all_loop_eq os jobs [] jobs.length s (by simpa using hwf)
    (by simpa using hlen) (le_refl _)
  simpa [await_all_background_jobs] using this

theorem await_all_ref_no_background (os : OS) (rest : job_list_t) :
    ∀ (pre : job_list_t) (s : Sys), (∀ j ∈ pre, j.status ≠ BACKGROUND) →
      (await_all_ref os pre rest s).1 = 0 →
      ∀ j ∈ (await_all_ref os pre rest s).2.1, j.status ≠ BACKGROUND := by
  induction rest with
  | nil => intro pre s hpre _; simpa [await_all_ref] using hpre
  | cons c rest ih =>
    intro pre s hpre
    simp only [await_all_ref]
    by_cases hb : c.status = BACKGROUND
    · simp only [hb, if_true]
      by_cases hr : (waitpid os s c.pid WUNTRACED).1 = -1
      · simp [hr]
      · simp only [hr, if_false]
        by_cases hs : WIFSTOPPED (waitpid os s c.pid WUNTRACED).2.1 = true
        · simp only [hs, if_true]
          apply ih
          intro j hj
          rcases List.mem_append.1 hj with h | h
          · exact hpre j h
          · simp only [List.mem_singleton] at h; subst h; simp
        · simp only [hs]
          exact ih pre _ hpre
    · simp only [hb, if_false]
      apply ih
      intro j hj
      rcases List.mem_append.1 hj with h | h
      · exact hpre j h
      · simp only [List.mem_singleton] at h; subst h; exact hb

theorem await_all_ref_success (os : OS) (hok : ∀ n, os.ret n ≠ -1) (rest : job_list_t) :
    ∀ (pre : job_list_t) (s : Sys),
      await_all_ref os pre rest s =
        (0, pre ++ await_all_spec os s.trace.length rest,
          { s with
            trace := s.trace ++ await_all_waits os s.trace.length rest
            removes := s.removes ++ await_all_removes os s.trace.length pre.length rest }) := by
  induction rest with
  | nil => intro pre s; simp [await_all_ref, await_all_spec, await_all_waits, await_all_removes]
  | cons c rest ih =>
    intro pre s
    simp only [await_all_ref, await_all_spec, await_all_waits, await_all_removes]
    by_cases hb : c.status = BACKGROUND
    · simp only [hb, if_true]
      have hr : ¬ (os.ret s.trace.length = -1) := hok _
      have hr2 : wait_status os s.trace.length = os.status s.trace.length := by
        simp [wait_status, hr]
      simp only [waitpid, hr, hr2, if_false]
      cases hs : WIFSTOPPED (os.status s.trace.length)
      · simp [hs, ih, log_remove, job_list_get_append_cons]
      · simp [hs, ih]
    · simp only [hb, if_false]
      rw [ih]
      simp

/-- C1: on a well-formed Registry `await_all_background_jobs` always returns;
when it returns 0 the Registry holds no Job with status BACKGROUND; and it
returns 0 whenever every wait succeeds. -/
theorem await_all_leaves_no_background (os : OS) (jobs : job_list_t) (s : Sys)
    (hwf : wf jobs) (hlen : jobs.length < 2 ^ 32) :
    ∃ r jobs' s', await_all_background_jobs os jobs s = some (r, jobs', s') ∧
      (r = 0 → ∀ j ∈ jobs', j.status ≠ BACKGROUND) ∧
      ((∀ n, os.ret n ≠ -1) → r = 0) := by
  refine ⟨(await_all_ref os [] jobs s).1, (await_all_ref os [] jobs s).2.1,
    (await_all_ref os [] jobs s).2.2, await_all_eq_ref os jobs s hwf hlen, ?_, ?_⟩
  · exact await_all_ref_no_background os jobs [] s (by simp)
  · intro hok
    rw [await_all_ref_success os hok]

theorem await_all_leaves_no_background_witness :
    wf jobs_demo ∧ jobs_demo.length < 2 ^ 32 ∧
    ∃ r jobs' s', await_all_background_jobs os_demo jobs_demo Sys.init = some (r, jobs', s') ∧
      (r = 0 → ∀ j ∈ jobs', j.status ≠ BACKGROUND) ∧
      ((∀ n, os_demo.ret n ≠ -1) → r = 0) :=
  ⟨by decide, by decide,
    await_all_leaves_no_background os_demo jobs_demo Sys.init (by decide) (by decide)⟩

/-- C2: when every wait succeeds, `await_all_background_jobs` returns 0, its
system calls are one wait per BACKGROUND job in order and none for a STOPPED
job, the resulting Registry is the original sequence with the exited
BACKGROUND jobs removed, the stopped BACKGROUND jobs kept as STOPPED and the
STOPPED jobs unchanged, and each call of `job_list_remove` receives the
position of the job just waited on. -/
theorem await_all_result (os : OS) (jobs : job_list_t) (s : Sys)
    (hwf : wf jobs) (hlen : jobs.length < 2 ^ 32) (hok : ∀ n, os.ret n ≠ -1) :
    await_all_background_jobs os jobs s =
        some (0, await_all_spec os s.trace.length jobs,
          { s with
            trace := s.trace ++ await_all_waits os s.trace.length jobs
            removes := s.removes ++ await_all_removes os s.trace.length 0 jobs }) ∧
      ∀ c ∈ await_all_removes os s.trace.length 0 jobs, c.at_idx = some c.target := by
  refine ⟨?_, ?_⟩
  · rw [await_all_eq_ref os jobs s hwf hlen, await_all_ref_success os hok]
    simp
  · have key : ∀ (js : job_list_t) (n k : Nat),
        ∀ c ∈ await_all_removes os n k js, c.at_idx = some c.target := by
      intro js
      induction js with
      | nil => intro n k c hc; simp [await_all_removes] at hc
      | cons j js ih =>
        intro n k c hc
        simp only [await_all_removes] at hc
        split_ifs at hc
        · exact ih _ _ c hc
        · rcases List.mem_cons.1 hc with h | h
          · subst h; rfl
          · exact ih _ _ c h
        · exact ih _ _ c hc
    exact key jobs _ _

theorem await_all_result_witness :
    (wf jobs_demo ∧ jobs_demo.length < 2 ^ 32 ∧ ∀ n, os_demo.ret n ≠ -1) ∧
    (await_all_background_jobs os_demo jobs_demo Sys.init =
        some (0, await_all_spec os_demo Sys.init.trace.length jobs_demo,
          { Sys.init with
            trace := Sys.init.trace ++ await_all_waits os_demo Sys.init.trace.length jobs_demo
            removes := Sys.init.removes ++
              await_all_removes os_demo Sys.init.trace.length 0 jobs_demo }) ∧
      ∀ c ∈ await_all_removes os_demo Sys.init.trace.length 0 jobs_demo,
        c.at_idx = some c.target) ∧
    await_all_spec os_demo Sys.init.trace.length jobs_demo =
      [⟨1, 11, "a", STOPPED⟩, ⟨2, 12, "b", STOPPED⟩] ∧
    await_all_waits os_demo Sys.init.trace.length jobs_demo =
      [Event.waitpid 11 WUNTRACED 7 127, Event.waitpid 13 WUNTRACED 7 0] ∧
    await_all_removes os_demo Sys.init.trace.length 0 jobs_demo = [⟨2, some 3, 3⟩] :=
  ⟨⟨by decide, by decide, fun n => by simp [os_demo]⟩,
    await_all_result os_demo jobs_demo Sys.init (by decide) (by decide)
      (fun n => by simp [os_demo]),
    by decide, by decide, by decide⟩

theorem job_list_get_split {jobs : job_list_t} {idx : Int} {job : job_t}
    (h : job_list_get jobs idx = some job) :
    ∃ pre rest, jobs = pre ++ job :: rest ∧ (pre.length : Int) = idx := by
  unfold job_list_get at h
  by_cases hneg : idx < 0
  · simp [hneg] at h
  · simp only [hneg, if_false] at h
    obtain ⟨hlt, he⟩ := List.getElem?_eq_some.1 h
    refine ⟨jobs.take idx.toNat, jobs.drop (idx.toNat + 1), ?_, ?_⟩
    · rw [← he, ← List.drop_eq_getElem_cons hlt, List.take_append_drop]
    · rw [List.length_take, min_eq_left (le_of_lt hlt)]
      omega

theorem tokens_length_of_get {tokens : strvec_t} {idx : Int}
    (h : atoi (strvec_get tokens 1) = some idx) : ¬ tokens.length < 2 := by
  intro hlt
  have : strvec_get tokens 1 = none := by
    unfold strvec_get
    exact List.getElem?_eq_none (by omega)
  rw [this] at h
  simp [atoi] at h

/-- C3: `wait-for` on an index that addresses a STOPPED job returns -1, makes no
system call (so no wait) and leaves the Registry as it was. -/
theorem await_background_job_stopped (os : OS) (tokens : strvec_t) (jobs : job_list_t)
    (s : Sys) (index : Int) (job : job_t)
    (htok : atoi (strvec_get tokens 1) = some index)
    (hjob : job_list_get jobs index = some job) (hst : job.status = STOPPED) :
    ∃ s', await_background_job os tokens jobs s = some (-1, jobs, s') ∧
      s'.trace = s.trace ∧ s'.removes = s.removes ∧
      s'.err = s.err ++
        [ErrLine.text "Job index is for stopped process not background process\n"] := by
  refine ⟨eprint s "Job index is for stopped process not background process\n",
    ?_, rfl, rfl, rfl⟩
  simp [await_background_job, tokens_length_of_get htok, htok, hjob, hst]

theorem await_background_job_stopped_witness :
    (atoi (strvec_get ["wait-for", "1"] 1) = some 1 ∧
      job_list_get jobs_demo 1 = some ⟨2, 12, "b", STOPPED⟩ ∧
      (⟨2, 12, "b", STOPPED⟩ : job_t).status = STOPPED) ∧
    ∃ s', await_background_job os_demo ["wait-for", "1"] jobs_demo Sys.init
        = some (-1, jobs_demo, s') ∧
      s'.trace = Sys.init.trace ∧ s'.removes = Sys.init.removes ∧
      s'.err = Sys.init.err ++
        [ErrLine.text "Job index is for stopped process not background process\n"] :=
  ⟨⟨by decide, by decide, by decide⟩,
    await_background_job_stopped os_demo ["wait-for", "1"] jobs_demo Sys.init 1
      ⟨2, 12, "b", STOPPED⟩ (by decide) (by decide) (by decide)⟩

theorem atoi_in_range (t : String) (h0 : 0 ≤ atoi_value t) (h1 : atoi_value t < 2 ^ 31) :
    atoi (some t) = some (atoi_value t) := by
  have h1' : atoi_value t < 2147483648 := by
    have : (2 : Int) ^ 31 = 2147483648 := by norm_num
    omega
  simp only [atoi, strtol_clamp, long_to_int, Option.some.injEq]
  split_ifs <;> omega

/-- C4, as amended: `fg <index>` and `bg <index>` with an index argument that an
`int` can hold and that is at or beyond the number of jobs return -1 with the
out-of-bounds message, make no system call (no terminal transfer, no signal,
no wait) and leave the Registry unchanged. -/
theorem resume_job_out_of_bounds (os : OS) (tokens : strvec_t) (jobs : job_list_t)
    (is_foreground : Int) (s : Sys) (t : String)
    (htok : strvec_get tokens 1 = some t) (hidx : (jobs.length : Int) ≤ atoi_value t)
    (hint : atoi_value t < 2 ^ 31) :
    ∃ s', resume_job os tokens jobs is_foreground s = some (-1, jobs, s') ∧
      s'.trace = s.trace ∧ s'.removes = s.removes ∧
      s'.err = s.err ++ [ErrLine.text "Job index out of bounds\n"] := by
  refine ⟨eprint s "Job index out of bounds\n", ?_, rfl, rfl, rfl⟩
  have hat : atoi (strvec_get tokens 1) = some (atoi_value t) := by
    rw [htok]
    exact atoi_in_range t (by omega) hint
  have hget : job_list_get jobs (atoi_value t) = none := by
    unfold job_list_get
    have : ¬ atoi_value t < 0 := by omega
    simp only [this, if_false]
    exact List.getElem?_eq_none (by omega)
  simp [resume_job, tokens_length_of_get hat, hat, hget]

/-- C4, as stated, fails on `fg 4294967296` with one job: the index argument is
beyond the number of jobs, `atoi` wraps it to 0, and the job at index 0 is
resumed: the terminal is transferred, the signal is sent, the wait is made and
the job, whose process exits, leaves the Registry. -/
theorem resume_job_index_wraps :
    strvec_get ["fg", "4294967296"] 1 = some "4294967296" ∧
    atoi_value "4294967296" = 4294967296 ∧
    (([⟨1, 11, "a", STOPPED⟩] : job_list_t).length : Int) ≤ atoi_value "4294967296" ∧
    atoi (some "4294967296") = some 0 ∧
    resume_job os_demo ["fg", "4294967296"] [⟨1, 11, "a", STOPPED⟩] 1 Sys.init =
      some (0, [],
        ⟨[Event.tcsetpgrp 0 11 7, Event.kill 11 18 7, Event.waitpid 11 2 7 0,
          Event.tcsetpgrp 0 100 7], [], [], [⟨0, some 1, 1⟩]⟩) ∧
    ¬ ∃ s', resume_job os_demo ["fg", "4294967296"] [⟨1, 11, "a", STOPPED⟩] 1 Sys.init =
      some (-1, [⟨1, 11, "a", STOPPED⟩], s') := by
  have h : resume_job os_demo ["fg", "4294967296"] [⟨1, 11, "a", STOPPED⟩] 1 Sys.init =
      some (0, [],
        ⟨[Event.tcsetpgrp 0 11 7, Event.kill 11 18 7, Event.waitpid 11 2 7 0,
          Event.tcsetpgrp 0 100 7], [], [], [⟨0, some 1, 1⟩]⟩) := by decide
  refine ⟨by decide, by decide, by decide, by decide, h, ?_⟩
  rintro ⟨s', h'⟩
  rw [h] at h'
  simp at h'

theorem resume_job_out_of_bounds_witness :
    (strvec_get ["fg", "3"] 1 = some "3" ∧
      (([⟨1, 11, "a", STOPPED⟩, ⟨2, 12, "b", BACKGROUND⟩] : job_list_t).length : Int)
        ≤ atoi_value "3" ∧ atoi_value "3" < 2 ^ 31) ∧
    ∃ s', resume_job os_demo ["fg", "3"] [⟨1, 11, "a", STOPPED⟩, ⟨2, 12, "b", BACKGROUND⟩] 1
        Sys.init = some (-1, [⟨1, 11, "a", STOPPED⟩, ⟨2, 12, "b", BACKGROUND⟩], s') ∧
      s'.trace = Sys.init.trace ∧ s'.removes = Sys.init.removes ∧
      s'.err = Sys.init.err ++ [ErrLine.text "Job index out of bounds\n"] :=
  ⟨⟨by decide, by decide, by decide⟩,
    resume_job_out_of_bounds os_demo ["fg", "3"] _ 1 Sys.init "3" (by decide) (by decide)
      (by decide)⟩

theorem store_status_same {jobs : job_list_t} {idx : Int} {job : job_t} (hwf : wf jobs)
    (hjob : job_list_get jobs idx = some job) :
    store_status jobs job.addr job.status = jobs := by
  obtain ⟨pre, rest, rfl, _⟩ := job_list_get_split hjob
  rw [store_status_append_cons hwf]

theorem job_list_remove_eq {jobs : job_list_t} {idx : Int} {job : job_t}
    (hjob : job_list_get jobs idx = some job) :
    job_list_remove jobs idx = jobs.eraseIdx idx.toNat := by
  obtain ⟨pre, rest, rfl, hlen⟩ := job_list_get_split hjob
  unfold job_list_remove
  have : ¬ idx < 0 := by omega
  simp [this]

/-- C5: `fg <index>` on a STOPPED job at a valid index always returns; it
succeeds exactly when its four system calls succeed, and then: if the wait
reported an exit the Registry is the original without the job at that index,
and if the wait reported a stop the Registry is the original one, the job at
the index being STOPPED with its process identifier. -/
theorem resume_job_foreground (os : OS) (tokens : strvec_t) (jobs : job_list_t)
    (s : Sys) (idx : Int) (job : job_t) (hwf : wf jobs)
    (htok : atoi (strvec_get tokens 1) = some idx)
    (hjob : job_list_get jobs idx = some job) (hst : job.status = STOPPED) :
    ∃ r jobs' s', resume_job os tokens jobs 1 s = some (r, jobs', s') ∧
      (r = 0 ↔ (os.ret s.trace.length ≠ -1 ∧ os.ret (s.trace.length + 1) ≠ -1 ∧
        os.ret (s.trace.length + 2) ≠ -1 ∧ os.ret (s.trace.length + 3) ≠ -1)) ∧
      (r = 0 →
        s'.trace = s.trace ++
          [Event.tcsetpgrp STDIN_FILENO job.pid (os.ret s.trace.length),
           Event.kill job.pid SIGCONT (os.ret (s.trace.length + 1)),
           Event.waitpid job.pid WUNTRACED (os.ret (s.trace.length + 2))
             (os.status (s.trace.length + 2)),
           Event.tcsetpgrp STDIN_FILENO os.self_pid (os.ret (s.trace.length + 3))] ∧
        (WIFSTOPPED (os.status (s.trace.length + 2)) = false →
          jobs' = jobs.eraseIdx idx.toNat) ∧
        (WIFSTOPPED (os.status (s.trace.length + 2)) = true →
          jobs' = jobs ∧ (job_list_get jobs' idx).map job_t.status = some STOPPED ∧
            (job_list_get jobs' idx).map job_t.pid = some job.pid)) := by
  have hsame : store_status jobs job.addr STOPPED = jobs := by
    rw [← hst]; exact store_status_same hwf hjob
  have hrem := job_list_remove_eq hjob
  simp only [resume_job, tokens_length_of_get htok, if_false, htok, hjob, syscall, waitpid,
    hsame, hrem]
  by_cases h0 : os.ret s.trace.length = -1
  · simp only [h0]
    exact ⟨_, _, _, rfl, by simp⟩
  by_cases h1 : os.ret (s.trace.length + 1) = -1
  · simp [h0, h1]
    exact ⟨_, _, _, ⟨rfl, rfl, rfl⟩, by simp⟩
  by_cases h2 : os.ret (s.trace.length + 2) = -1
  · simp [h0, h1, h2]
    exact ⟨_, _, _, ⟨rfl, rfl, rfl⟩, by simp⟩
  have h2b : wait_status os (s.trace.length + 2) = os.status (s.trace.length + 2) := by
    simp [wait_status, h2]
  cases hs : WIFSTOPPED (os.status (s.trace.length + 2))
  · by_cases h3 : os.ret (s.trace.length + 3) = -1
    · simp [h0, h1, h2, h2b, hs, h3, log_remove]
      exact ⟨_, _, _, ⟨rfl, rfl, rfl⟩, by simp⟩
    · simp [h0, h1, h2, h2b, hs, h3, log_remove]
      exact ⟨_, _, _, ⟨rfl, rfl, rfl⟩, by simp⟩
  · by_cases h3 : os.ret (s.trace.length + 3) = -1
    · simp [h0, h1, h2, h2b, hs, h3]
      exact ⟨_, _, _, ⟨rfl, rfl, rfl⟩, by simp⟩
    · simp [h0, h1, h2, h2b, hs, h3]
      exact ⟨_, _, _, ⟨rfl, rfl, rfl⟩, by simp [hjob, hst]⟩

theorem resume_job_foreground_witness :
    (wf jobs_demo ∧ atoi (strvec_get ["fg", "1"] 1) = some 1 ∧
      job_list_get jobs_demo 1 = some ⟨2, 12, "b", STOPPED⟩ ∧
      (⟨2, 12, "b", STOPPED⟩ : job_t).status = STOPPED) ∧
    (∃ r jobs' s', resume_job os_demo ["fg", "1"] jobs_demo 1 Sys.init = some (r, jobs', s') ∧
      (r = 0 ↔ (os_demo.ret Sys.init.trace.length ≠ -1 ∧
        os_demo.ret (Sys.init.trace.length + 1) ≠ -1 ∧
        os_demo.ret (Sys.init.trace.length + 2) ≠ -1 ∧
        os_demo.ret (Sys.init.trace.length + 3) ≠ -1)) ∧
      (r = 0 →
        s'.trace = Sys.init.trace ++
          [Event.tcsetpgrp STDIN_FILENO (⟨2, 12, "b", STOPPED⟩ : job_t).pid
             (os_demo.ret Sys.init.trace.length),
           Event.kill (⟨2, 12, "b", STOPPED⟩ : job_t).pid SIGCONT
             (os_demo.ret (Sys.init.trace.length + 1)),
           Event.waitpid (⟨2, 12, "b", STOPPED⟩ : job_t).pid WUNTRACED
             (os_demo.ret (Sys.init.trace.length + 2))
             (os_demo.status (Sys.init.trace.length + 2)),
           Event.tcsetpgrp STDIN_FILENO os_demo.self_pid
             (os_demo.ret (Sys.init.trace.length + 3))] ∧
        (WIFSTOPPED (os_demo.status (Sys.init.trace.length + 2)) = false →
          jobs' = jobs_demo.eraseIdx (1 : Int).toNat) ∧
        (WIFSTOPPED (os_demo.status (Sys.init.trace.length + 2)) = true →
          jobs' = jobs_demo ∧ (job_list_get jobs' 1).map job_t.status = some STOPPED ∧
            (job_list_get jobs' 1).map job_t.pid =
              some (⟨2, 12, "b", STOPPED⟩ : job_t).pid))) ∧
    resume_job os_demo ["fg", "1"] jobs_demo 1 Sys.init
      = some (0, [⟨1, 11, "a", BACKGROUND⟩, ⟨3, 13, "c", BACKGROUND⟩],
         ⟨[Event.tcsetpgrp 0 12 7, Event.kill 12 18 7, Event.waitpid 12 2 7 0,
           Event.tcsetpgrp 0 100 7], [], [], [⟨1, some 2, 2⟩]⟩) :=
  ⟨⟨by decide, by decide, by decide, by decide⟩,
    resume_job_foreground os_demo ["fg", "1"] jobs_demo Sys.init 1 ⟨2, 12, "b", STOPPED⟩
      (by decide) (by decide) (by decide) (by decide),
    by decide⟩

theorem argv_after_set (tokens : strvec_t) (i : Nat) (hi : i < tokens.length)
    (h10 : i < MAX_ARGS) :
    (argv_after tokens i).set i (to_arg (strvec_get tokens i)) = argv_after tokens (i + 1) := by
  unfold argv_after
  have hlen : ((tokens.take i).map arg_t.str).length = i := by
    simp [List.length_take, min_eq_left (le_of_lt hi)]
  have hget : strvec_get tokens i = some tokens[i] := by
    unfold strvec_get; exact List.getElem?_eq_getElem hi
  rw [List.set_append_right _ _ (by rw [hlen]), hlen, Nat.sub_self]
  have hrep : MAX_ARGS + 1 - i = (MAX_ARGS + 1 - (i + 1)) + 1 := by omega
  have ht : tokens.take (i + 1) = tokens.take i ++ [tokens[i]] := by
    rw [List.take_succ, List.getElem?_eq_getElem hi]; rfl
  rw [hrep, List.replicate_succ, List.set_cons_zero, hget, ht, List.map_append]
  simp only [to_arg, List.map_cons, List.map_nil, List.append_assoc, List.singleton_append]

theorem argv_loop_eq (tokens : strvec_t) :
    ∀ (fuel i : Nat), i ≤ min tokens.length MAX_ARGS → min tokens.length MAX_ARGS - i < fuel →
      argv_loop tokens fuel i i (argv_after tokens i)
        = some (min tokens.length MAX_ARGS, argv_after tokens (min tokens.length MAX_ARGS)) := by
  intro fuel
  induction fuel with
  | zero => intro i _ h; omega
  | succ fuel ih =>
    intro i hi hfuel
    unfold argv_loop
    by_cases hc : i < tokens.length ∧ i < MAX_ARGS
    · rw [if_pos hc, argv_after_set tokens i hc.1 hc.2]
      exact ih (i + 1) (by omega) (by omega)
    · rw [if_neg hc]
      have : i = min tokens.length MAX_ARGS := by omega
      rw [← this]

theorem exec_args_strs (l : List String) (rest : List arg_t) :
    exec_args (l.map arg_t.str ++ arg_t.null :: rest) = l.map arg_t.str ++ [arg_t.null] := by
  induction l with
  | nil => simp [exec_args]
  | cons a l ih => simp [exec_args, ih]

theorem build_argv_eq (tokens : strvec_t) :
    ∃ argv, build_argv tokens = some argv ∧
      argv.headD arg_t.uninit = to_arg tokens.head? ∧
      exec_args argv = (tokens.take MAX_ARGS).map arg_t.str ++ [arg_t.null] := by
  have h := argv_loop_eq tokens (MAX_ARGS + 1) 0 (Nat.zero_le _) (by omega)
  have h0 : argv_after tokens 0 = List.replicate (MAX_ARGS + 1) arg_t.uninit := by
    simp [argv_after]
  rw [h0] at h
  have hm : min tokens.length MAX_ARGS ≤ MAX_ARGS := min_le_right _ _
  have hset : (argv_after tokens (min tokens.length MAX_ARGS)).set (min tokens.length MAX_ARGS)
      arg_t.null = (tokens.take MAX_ARGS).map arg_t.str ++
        arg_t.null :: List.replicate (MAX_ARGS - min tokens.length MAX_ARGS) arg_t.uninit := by
    unfold argv_after
    have hlen : ((tokens.take (min tokens.length MAX_ARGS)).map arg_t.str).length
        = min tokens.length MAX_ARGS := by
      simp [List.length_take]
    have htake : tokens.take (min tokens.length MAX_ARGS) = tokens.take MAX_ARGS := by
      rcases le_total tokens.length MAX_ARGS with hle | hle
      · rw [min_eq_left hle, List.take_of_length_le (le_refl _), List.take_of_length_le hle]
      · rw [min_eq_right hle]
    rw [List.set_append_right _ _ (by rw [hlen]), hlen, Nat.sub_self]
    have hrep : MAX_ARGS + 1 - min tokens.length MAX_ARGS
        = (MAX_ARGS - min tokens.length MAX_ARGS) + 1 := by omega
    rw [hrep, List.replicate_succ, List.set_cons_zero, htake]
  refine ⟨(argv_after tokens (min tokens.length MAX_ARGS)).set (min tokens.length MAX_ARGS)
    arg_t.null, ?_, ?_, ?_⟩
  · unfold build_argv
    rw [h]
  · rw [hset]
    cases tokens with
    | nil => simp [to_arg]
    | cons a l => simp [to_arg, MAX_ARGS]
  · rw [hset, exec_args_strs]

theorem run_command_of_setup (os : OS) (tokens : strvec_t) (s : Sys) (tokens2 : strvec_t)
    (s4 : Sys) (h : run_setup os tokens s = (none, tokens2, s4)) :
    run_command os tokens s =
      some (if os.ret s4.trace.length = -1 then
          (run_result.returned (-1), tokens2, perror (after_exec os tokens2 s4) "exec")
        else (run_result.replaced, tokens2, after_exec os tokens2 s4)) := by
  obtain ⟨argv, hb, hhead, hargs⟩ := build_argv_eq tokens2
  simp only [run_command, h, hb, syscall, hhead, hargs, after_exec]
  by_cases hr : os.ret s4.trace.length = -1
  · simp only [hr, if_true]
  · simp only [hr, if_false]

/-- C10: whatever token vector `tokens2` is left after the redirection handling
of `run_command`, the function goes on to `execvp` with the first
`min(n, MAX_ARGS)` tokens in order followed by a null entry; it reports nothing
about dropped tokens and returns only if `execvp` itself fails. -/
theorem run_command_argv (os : OS) (tokens : strvec_t) (s : Sys) (tokens2 : strvec_t)
    (s4 : Sys) (h : run_setup os tokens s = (none, tokens2, s4)) :
    MAX_ARGS = 10 ∧
    (tokens2.length ≤ MAX_ARGS → tokens2.take MAX_ARGS = tokens2) ∧
    ∃ s5, run_command os tokens s =
        some (if os.ret s4.trace.length = -1 then run_result.returned (-1)
              else run_result.replaced, tokens2, s5) ∧
      s5.trace = s4.trace ++
        [Event.execvp (to_arg tokens2.head?)
          ((tokens2.take MAX_ARGS).map arg_t.str ++ [arg_t.null]) (os.ret s4.trace.length)] ∧
      s5.err = s4.err ++
        (if os.ret s4.trace.length = -1 then [ErrLine.perror "exec"] else []) := by
  refine ⟨rfl, fun hle => List.take_of_length_le hle, ?_⟩
  rw [run_command_of_setup os tokens s tokens2 s4 h]
  by_cases hr : os.ret s4.trace.length = -1
  · simp only [hr, if_true]
    exact ⟨_, rfl, by simp [after_exec, perror, hr], by simp [after_exec, perror]⟩
  · simp only [hr, if_false]
    exact ⟨_, rfl, rfl, by simp [after_exec]⟩

theorem run_command_argv_witness :
    run_setup os_demo tokens_long Sys.init = (none, tokens_long, ⟨setup_trace, [], [], []⟩) ∧
    (MAX_ARGS = 10 ∧
    (tokens_long.length ≤ MAX_ARGS → tokens_long.take MAX_ARGS = tokens_long) ∧
    ∃ s5, run_command os_demo tokens_long Sys.init =
        some (if os_demo.ret (⟨setup_trace, [], [], []⟩ : Sys).trace.length = -1
              then run_result.returned (-1)
              else run_result.replaced, tokens_long, s5) ∧
      s5.trace = (⟨setup_trace, [], [], []⟩ : Sys).trace ++
        [Event.execvp (to_arg tokens_long.head?)
          ((tokens_long.take MAX_ARGS).map arg_t.str ++ [arg_t.null])
          (os_demo.ret (⟨setup_trace, [], [], []⟩ : Sys).trace.length)] ∧
      s5.err = (⟨setup_trace, [], [], []⟩ : Sys).err ++
        (if os_demo.ret (⟨setup_trace, [], [], []⟩ : Sys).trace.length = -1
         then [ErrLine.perror "exec"] else [])) ∧
    run_command os_demo tokens_long Sys.init = some (run_result.replaced, tokens_long,
      ⟨setup_trace ++ [Event.execvp (arg_t.str "e")
        [arg_t.str "e", arg_t.str "1", arg_t.str "2", arg_t.str "3", arg_t.str "4",
         arg_t.str "5", arg_t.str "6", arg_t.str "7", arg_t.str "8", arg_t.str "9",
         arg_t.null] 7], [], [], []⟩) :=
  ⟨by decide, run_command_argv os_demo tokens_long Sys.init tokens_long _ (by decide),
    by decide⟩

theorem tokens_ne_of_get {tokens : strvec_t} {first : String}
    (h : strvec_get tokens 0 = some first) : ¬ tokens.length = 0 := by
  intro h0
  rw [List.length_eq_zero] at h0
  subst h0
  simp [strvec_get] at h

theorem dispatch_launch (os : OS) (tokens : strvec_t) (jobs : job_list_t) (s : Sys)
    (first : String) (hfirst : strvec_get tokens 0 = some first) (hnb : first ∉ builtins) :
    main_body os tokens jobs s = end_turn (launch os tokens jobs s) := by
  simp only [builtins, List.mem_cons, List.mem_singleton, List.not_mem_nil, or_false,
    not_or] at hnb
  obtain ⟨h1, h2, h3, h4, h5, h6, h7, h8⟩ := hnb
  simp only [main_body, tokens_ne_of_get hfirst, if_false, hfirst, h1, h2, h3, h4, h5, h6,
    h7, h8]

theorem take_get_zero {tokens : strvec_t} {first : String}
    (hfirst : strvec_get tokens 0 = some first) (hlen : 2 ≤ tokens.length) :
    strvec_get (strvec_take tokens (tokens.length - 1)) 0 = some first := by
  unfold strvec_get strvec_take at *
  rw [List.getElem?_take_of_lt (by omega)]
  exact hfirst

/-- C8, as amended: the launch step of `main` on a command line that is not a
built-in and holds a program name, when the fork succeeds. With a trailing
`&`: in the parent one BACKGROUND job with the child's pid and the program
name is appended and the only system call is the fork; in the child
`run_command` receives the tokens without the `&`. Without it: the parent
waits, and when the wait succeeds it appends one STOPPED job if the wait
reported a stop and leaves the Registry as it was if the wait reported an
exit. -/
theorem launch_registers (os : OS) (tokens : strvec_t) (jobs : job_list_t) (s : Sys)
    (first last : String) (hfirst : strvec_get tokens 0 = some first)
    (hnb : first ∉ builtins) (hlast : strvec_get tokens (tokens.length - 1) = some last) :
    (last = "&" → 2 ≤ tokens.length → 0 < os.ret s.trace.length →
      main_body os tokens jobs s =
        some (ctl_t.next,
          jobs ++ [⟨fresh_addr jobs, os.ret s.trace.length, first, BACKGROUND⟩],
          print { s with trace := s.trace ++ [Event.fork (os.ret s.trace.length)] } PROMPT)) ∧
    (last = "&" → os.ret s.trace.length = 0 →
      main_body os tokens jobs s =
        end_turn (launch_child os (tokens.take (tokens.length - 1)) jobs
          { s with trace := s.trace ++ [Event.fork 0] })) ∧
    (last ≠ "&" → 0 < os.ret s.trace.length → os.ret (s.trace.length + 2) ≠ -1 →
      ∃ s', main_body os tokens jobs s =
          some (ctl_t.next,
            if WIFSTOPPED (os.status (s.trace.length + 2)) then
              jobs ++ [⟨fresh_addr jobs, os.ret s.trace.length, first, STOPPED⟩]
            else jobs, s') ∧
        s'.trace = s.trace ++
          [Event.fork (os.ret s.trace.length),
           Event.tcsetpgrp STDIN_FILENO (os.ret s.trace.length) (os.ret (s.trace.length + 1)),
           Event.waitpid (os.ret s.trace.length) WUNTRACED (os.ret (s.trace.length + 2))
             (os.status (s.trace.length + 2)),
           Event.tcsetpgrp STDIN_FILENO os.self_pid (os.ret (s.trace.length + 3))]) := by
  rw [dispatch_launch os tokens jobs s first hfirst hnb]
  refine ⟨?_, ?_, ?_⟩
  · intro hl hlen hpid
    subst hl
    have h1 : ¬ os.ret s.trace.length < 0 := by omega
    have h2 : ¬ os.ret s.trace.length = 0 := by omega
    simp [launch, hlast, syscall, h1, h2, take_get_zero hfirst hlen, job_list_add, end_turn]
  · intro hl hpid
    subst hl
    simp [launch, hlast, syscall, hpid, strvec_take]
  · intro hl hpid hw
    have h1 : ¬ os.ret s.trace.length < 0 := by omega
    have h2 : ¬ os.ret s.trace.length = 0 := by omega
    have hws : wait_status os (s.trace.length + 2) = os.status (s.trace.length + 2) := by
      simp [wait_status, hw]
    have hbeq : (last == "&") = false := by simpa using hl
    simp only [launch, hlast, syscall, h1, h2, hbeq, if_false, waitpid, hfirst, job_list_add]
    by_cases ht : os.ret (s.trace.length + 1) = -1 <;>
    by_cases hr : os.ret (s.trace.length + 3) = -1 <;>
    cases hs : WIFSTOPPED (os.status (s.trace.length + 2)) <;>
    simp [ht, hr, hs, hw, hws, hfirst, perror, end_turn, print]

/-- C8, as stated, fails on two inputs. When the fork fails, the command
`sleep 5 &` appends no job. On the command line that consists of `&` alone the
token is removed, the vector is then empty, and the parent passes a null
display name to `job_list_add`: no job named after a first token is
registered. -/
theorem launch_without_job :
    (strvec_get ["sleep", "5", "&"] 0 = some "sleep" ∧ "sleep" ∉ builtins ∧
      main_body os_fail ["sleep", "5", "&"] [] Sys.init =
        some (ctl_t.next, [], ⟨[Event.fork (-1)], [ErrLine.perror "fork"], ["@> "], []⟩)) ∧
    (strvec_get ["&"] 0 = some "&" ∧ "&" ∉ builtins ∧ 0 < os_demo.ret Sys.init.trace.length ∧
      strvec_get (strvec_take ["&"] 0) 0 = none ∧
      main_body os_demo ["&"] [] Sys.init = none ∧
      ¬ ∃ a s', main_body os_demo ["&"] [] Sys.init =
        some (ctl_t.next, [⟨a, os_demo.ret Sys.init.trace.length, "&", BACKGROUND⟩], s')) := by
  have h : main_body os_demo ["&"] [] Sys.init = none := by decide
  refine ⟨⟨by decide, by decide, by decide⟩, by decide, by decide, by decide, by decide, h, ?_⟩
  rintro ⟨a, s', h'⟩
  rw [h] at h'
  exact Option.noConfusion h'

theorem launch_registers_witness :
    (strvec_get ["sleep", "5", "&"] 0 = some "sleep" ∧ "sleep" ∉ builtins ∧
      strvec_get ["sleep", "5", "&"] (["sleep", "5", "&"].length - 1) = some "&" ∧
      2 ≤ ["sleep", "5", "&"].length ∧ 0 < os_demo.ret Sys.init.trace.length) ∧
    main_body os_demo ["sleep", "5", "&"] [] Sys.init =
      some (ctl_t.next, [⟨1, 7, "sleep", BACKGROUND⟩], ⟨[Event.fork 7], [], ["@> "], []⟩) ∧
    (strvec_get ["vi"] 0 = some "vi" ∧ "vi" ∉ builtins ∧
      strvec_get ["vi"] (["vi"].length - 1) = some "vi" ∧ "vi" ≠ "&" ∧
      0 < os_stop.ret Sys.init.trace.length ∧ os_stop.ret (Sys.init.trace.length + 2) ≠ -1) ∧
    (∃ s', main_body os_stop ["vi"] [] Sys.init =
        some (ctl_t.next,
          if WIFSTOPPED (os_stop.status (Sys.init.trace.length + 2)) then
            [] ++ [⟨fresh_addr [], os_stop.ret Sys.init.trace.length, "vi", STOPPED⟩]
          else [], s') ∧
      s'.trace = Sys.init.trace ++
        [Event.fork (os_stop.ret Sys.init.trace.length),
         Event.tcsetpgrp STDIN_FILENO (os_stop.ret Sys.init.trace.length)
           (os_stop.ret (Sys.init.trace.length + 1)),
         Event.waitpid (os_stop.ret Sys.init.trace.length) WUNTRACED
           (os_stop.ret (Sys.init.trace.length + 2))
           (os_stop.status (Sys.init.trace.length + 2)),
         Event.tcsetpgrp STDIN_FILENO os_stop.self_pid
           (os_stop.ret (Sys.init.trace.length + 3))]) ∧
    main_body os_stop ["vi"] [] Sys.init =
      some (ctl_t.next, [⟨1, 7, "vi", STOPPED⟩],
        ⟨[Event.fork 7, Event.tcsetpgrp 0 7 7, Event.waitpid 7 2 7 127,
          Event.tcsetpgrp 0 100 7], [], ["@> "], []⟩) :=
  ⟨⟨by decide, by decide, by decide, by decide, by decide⟩,
    (launch_registers os_demo ["sleep", "5", "&"] [] Sys.init "sleep" "&" (by decide)
      (by decide) (by decide)).1 rfl (by decide) (by decide),
    ⟨by decide, by decide, by decide, by decide, by decide, by decide⟩,
    (launch_registers os_stop ["vi"] [] Sys.init "vi" "vi" (by decide)
      (by decide) (by decide)).2.2 (by decide) (by decide) (by decide),
    by decide⟩

/-- C9: a foreground launch makes, after the fork, exactly the calls: transfer
of the terminal to the child, blocking wait, transfer of the terminal to the
shell, in that order and whatever the calls return. A foreground resume makes
an initial part of: transfer to the job, continue signal, blocking wait,
transfer to the shell; the wait is never made without the transfer before it,
and whenever the wait succeeds (exit or stop) the transfer to the shell
follows it. -/
theorem foreground_terminal_order (os : OS) (tokens : strvec_t) (jobs : job_list_t) (s : Sys) :
    (∀ first last, strvec_get tokens 0 = some first → first ∉ builtins →
      strvec_get tokens (tokens.length - 1) = some last → last ≠ "&" →
      0 < os.ret s.trace.length →
      ∃ jobs' s', main_body os tokens jobs s = some (ctl_t.next, jobs', s') ∧
        s'.trace = s.trace ++ launch_calls os s.trace.length) ∧
    (∀ idx job, atoi (strvec_get tokens 1) = some idx → job_list_get jobs idx = some job →
      ∃ r jobs' s', resume_job os tokens jobs 1 s = some (r, jobs', s') ∧
        s'.trace = s.trace ++
          (resume_calls os s.trace.length job.pid).take (resume_call_count os s.trace.length) ∧
        (os.ret (s.trace.length + 2) ≠ -1 → resume_call_count os s.trace.length ≠ 3)) := by
  refine ⟨?_, ?_⟩
  · intro first last hfirst hnb hlast hl hpid
    rw [dispatch_launch os tokens jobs s first hfirst hnb]
    have h1 : ¬ os.ret s.trace.length < 0 := by omega
    have h2 : ¬ os.ret s.trace.length = 0 := by omega
    have hbeq : (last == "&") = false := by simpa using hl
    simp only [launch, hlast, syscall, h1, h2, hbeq, if_false, waitpid, hfirst, job_list_add,
      launch_calls]
    by_cases ht : os.ret (s.trace.length + 1) = -1 <;>
    by_cases hw : os.ret (s.trace.length + 2) = -1 <;>
    by_cases hr : os.ret (s.trace.length + 3) = -1 <;>
    cases hs : WIFSTOPPED (wait_status os (s.trace.length + 2)) <;>
    (simp [ht, hr, hs, hw, hfirst, perror, end_turn, print]
     exact ⟨_, _, ⟨rfl, rfl⟩, rfl⟩)
  · intro idx job htok hjob
    simp only [resume_job, tokens_length_of_get htok, if_false, htok, hjob, syscall, waitpid,
      resume_calls, resume_call_count]
    by_cases h0 : os.ret s.trace.length = -1
    · simp only [h0]
      exact ⟨_, _, _, rfl, by simp [perror], by simp⟩
    by_cases h1 : os.ret (s.trace.length + 1) = -1
    · simp [h0, h1]
      exact ⟨_, _, _, ⟨rfl, rfl, rfl⟩, by simp [perror]⟩
    by_cases h2 : os.ret (s.trace.length + 2) = -1
    · simp [h0, h1, h2]
      exact ⟨_, _, _, ⟨rfl, rfl, rfl⟩, by simp [perror]⟩
    cases hs : WIFSTOPPED (wait_status os (s.trace.length + 2)) <;>
    by_cases h3 : os.ret (s.trace.length + 3) = -1
    · simp [h0, h1, h2, hs, h3, log_remove]
      exact ⟨_, _, _, ⟨rfl, rfl, rfl⟩, by simp [perror]⟩
    · simp [h0, h1, h2, hs, h3, log_remove]
      exact ⟨_, _, _, ⟨rfl, rfl, rfl⟩, by simp⟩
    · simp [h0, h1, h2, hs, h3]
      exact ⟨_, _, _, ⟨rfl, rfl, rfl⟩, by simp [perror]⟩
    · simp [h0, h1, h2, hs, h3]
      exact ⟨_, _, _, ⟨rfl, rfl, rfl⟩, by simp⟩

theorem strvec_find_not_mem {vec : strvec_t} {t : String} (h : t ∉ vec) :
    strvec_find vec t = -1 := by
  simp [strvec_find, h]

theorem strvec_find_append {pre rest : strvec_t} {t : String} (h : t ∉ pre) :
    strvec_find (pre ++ t :: rest) t = (pre.length : Int) := by
  simp [strvec_find, List.indexOf_append_of_not_mem h]

theorem take_take_prefix (pre rest : strvec_t) (t f : String) :
    strvec_take (strvec_take (pre ++ t :: f :: rest) (pre.length + 1)) pre.length = pre := by
  simp [strvec_take, List.take_take, List.take_append_eq_append_take]

theorem redirect_input_none (os : OS) (tokens : strvec_t) (s : Sys) (h : "<" ∉ tokens) :
    redirect_input os tokens s = (none, tokens, s) := by
  simp [redirect_input, strvec_find_not_mem h]

theorem redirect_input_some (os : OS) (hok : ∀ n, os.ret n ≠ -1) (pre rest : strvec_t)
    (f : String) (s : Sys) (h : "<" ∉ pre) :
    redirect_input os (pre ++ "<" :: f :: rest) s =
      (none, pre,
        { s with
          trace := s.trace ++ redirect_events os s.trace.length f O_RDONLY 0 STDIN_FILENO }) := by
  have hlt : (pre.length : Int) + 1 < ((pre ++ "<" :: f :: rest).length : Int) := by
    simp only [List.length_append, List.length_cons]; push_cast; omega
  have hne : ¬ ((pre.length : Int) = -1) := by omega
  have hnat : ((pre.length : Int) + 1).toNat = pre.length + 1 := by omega
  have hget : strvec_get (pre ++ "<" :: f :: rest) (pre.length + 1) = some f := by
    unfold strvec_get
    rw [List.getElem?_append_right (by omega)]
    simp
  simp only [redirect_input, strvec_find_append h, hlt, hne, not_false_eq_true, and_self,
    if_true, hnat, hget, syscall, hok, if_false, Int.toNat_ofNat, take_take_prefix,
    redirect_events, ne_eq]
  simp

theorem redirect_output_none (os : OS) (tokens : strvec_t) (s : Sys) (h : ">" ∉ tokens)
    (h2 : ">>" ∉ tokens) : redirect_output os tokens s = (none, tokens, s) := by
  simp [redirect_output, strvec_find_not_mem h, strvec_find_not_mem h2]

theorem redirect_output_trunc (os : OS) (hok : ∀ n, os.ret n ≠ -1) (pre rest : strvec_t)
    (f : String) (s : Sys) (h : ">" ∉ pre) :
    redirect_output os (pre ++ ">" :: f :: rest) s =
      (none, pre,
        { s with
          trace := s.trace ++
            redirect_events os s.trace.length f (O_CREAT ||| O_WRONLY ||| O_TRUNC)
              (S_IRUSR ||| S_IWUSR) STDOUT_FILENO }) := by
  have hlt : (pre.length : Int) + 1 < ((pre ++ ">" :: f :: rest).length : Int) := by
    simp only [List.length_append, List.length_cons]; push_cast; omega
  have hne : ¬ ((pre.length : Int) = -1) := by omega
  have hnat : ((pre.length : Int) + 1).toNat = pre.length + 1 := by omega
  have hget : strvec_get (pre ++ ">" :: f :: rest) (pre.length + 1) = some f := by
    unfold strvec_get
    rw [List.getElem?_append_right (by omega)]
    simp
  simp only [redirect_output, strvec_find_append h, hlt, hne, not_false_eq_true, and_self,
    if_true, hnat, hget, syscall, hok, if_false, Int.toNat_ofNat, take_take_prefix,
    redirect_events, ne_eq]
  simp

theorem redirect_output_append (os : OS) (hok : ∀ n, os.ret n ≠ -1) (pre rest : strvec_t)
    (f : String) (s : Sys) (h : ">>" ∉ pre) (hout : ">" ∉ pre ++ ">>" :: f :: rest) :
    redirect_output os (pre ++ ">>" :: f :: rest) s =
      (none, pre,
        { s with
          trace := s.trace ++
            redirect_events os s.trace.length f (O_CREAT ||| O_WRONLY ||| O_APPEND)
              (S_IRUSR ||| S_IWUSR) STDOUT_FILENO }) := by
  have hlt : (pre.length : Int) + 1 < ((pre ++ ">>" :: f :: rest).length : Int) := by
    simp only [List.length_append, List.length_cons]; push_cast; omega
  have hne : ¬ ((pre.length : Int) = -1) := by omega
  have hnat : ((pre.length : Int) + 1).toNat = pre.length + 1 := by omega
  have hget : strvec_get (pre ++ ">>" :: f :: rest) (pre.length + 1) = some f := by
    unfold strvec_get
    rw [List.getElem?_append_right (by omega)]
    simp
  simp only [redirect_output, strvec_find_append h, strvec_find_not_mem hout, hlt, hne,
    not_false_eq_true, and_self, if_true, hnat, hget, syscall, hok, if_false,
    Int.toNat_ofNat, take_take_prefix, redirect_events, ne_eq, not_true_eq_false]
  simp

theorem is_redir_iff (t : String) : is_redir t = true ↔ t = "<" ∨ t = ">" ∨ t = ">>" := by
  simp [is_redir, or_assoc]

theorem filenames_follow_split (pre rest : strvec_t) (o : String)
    (h : filenames_follow (pre ++ o :: rest) = true) (ho : is_redir o = true) :
    ∃ g rest', rest = g :: rest' ∧ is_redir g = false := by
  induction pre with
  | nil =>
    cases rest with
    | nil => simp [filenames_follow, ho] at h
    | cons g rest' =>
      refine ⟨g, rest', rfl, ?_⟩
      simp only [List.nil_append, filenames_follow, ho, if_true, Bool.and_eq_true,
        Bool.not_eq_true'] at h
      exact h.1
  | cons a pre ih =>
    apply ih
    simp only [List.cons_append, filenames_follow, Bool.and_eq_true] at h
    exact h.2

theorem takeWhile_ne_self (l : strvec_t) (x : String) (h : x ∉ l) :
    l.takeWhile (fun t => t != x) = l := by
  induction l with
  | nil => rfl
  | cons a l ih =>
    have ha : a ≠ x := fun e => h (by rw [e]; exact List.mem_cons_self _ _)
    have hl : x ∉ l := fun e => h (List.mem_cons_of_mem _ e)
    rw [List.takeWhile_cons_of_pos (by simpa using ha), ih hl]

theorem takeWhile_ne_append (l rest : strvec_t) (x : String) (h : x ∉ l) :
    (l ++ x :: rest).takeWhile (fun t => t != x) = l := by
  induction l with
  | nil => simp [List.takeWhile]
  | cons a l ih =>
    have ha : a ≠ x := fun e => h (by rw [e]; exact List.mem_cons_self _ _)
    have hl : x ∉ l := fun e => h (List.mem_cons_of_mem _ e)
    rw [List.cons_append, List.takeWhile_cons_of_pos (by simpa using ha), ih hl]

theorem dropWhile_plain (P rest : strvec_t) (o : String) (hP : ∀ t ∈ P, is_redir t = false)
    (ho : is_redir o = true) :
    (P ++ o :: rest).dropWhile (fun t => !is_redir t) = o :: rest := by
  induction P with
  | nil => simp [List.dropWhile, ho]
  | cons a P ih =>
    have ha := hP a (List.mem_cons_self _ _)
    simp only [List.cons_append, List.dropWhile, ha, Bool.not_false]
    exact ih (fun t ht => hP t (List.mem_cons_of_mem _ ht))

theorem takeWhile_sublist_strip (tokens : strvec_t) :
    (tokens.takeWhile (fun t => !is_redir t)).Sublist (strip_redir tokens) := by
  induction tokens with
  | nil => simp [strip_redir]
  | cons t rest ih =>
    cases hr : is_redir t
    · cases rest with
      | nil => simp [strip_redir, List.takeWhile, hr]
      | cons f rest' =>
        simp only [strip_redir, hr, Bool.false_eq_true, if_false]
        rw [List.takeWhile_cons_of_pos (by simp [hr])]
        exact List.Sublist.cons₂ _ ih
    · rw [List.takeWhile_cons_of_neg (by simp [hr])]
      exact List.nil_sublist _

/-- The input redirection on a list whose first `<`, if there is one, comes after
the tokens `pre ++ [o, f]`: these tokens are kept, and what is left is the part
of the list before the first `<`. -/
theorem redirect_input_after (os : OS) (hok : ∀ n, os.ret n ≠ -1) (pre rest : strvec_t)
    (o f : String) (s : Sys) (hpre : "<" ∉ pre) (ho : o ≠ "<") (hf : f ≠ "<")
    (hff : filenames_follow (pre ++ o :: f :: rest) = true) :
    ∃ A s3, redirect_input os (pre ++ o :: f :: rest) s = (none, pre ++ o :: f :: A, s3) ∧
      s3.err = s.err ∧
      (pre ++ o :: f :: rest).takeWhile (fun t => t != "<") = pre ++ o :: f :: A := by
  by_cases hin : "<" ∈ rest
  · obtain ⟨A, B, hAB, hA⟩ := List.eq_append_cons_of_mem hin
    have hsplit : pre ++ o :: f :: rest = (pre ++ o :: f :: A) ++ "<" :: B := by
      rw [hAB]; simp
    obtain ⟨g, B', hB, _⟩ := filenames_follow_split (pre ++ o :: f :: A) B "<"
      (by rw [← hsplit]; exact hff) (by decide)
    have hnot : "<" ∉ pre ++ o :: f :: A := by
      simp only [List.mem_append, List.mem_cons, not_or]
      exact ⟨hpre, fun e => ho e.symm, fun e => hf e.symm, hA⟩
    refine ⟨A, { s with
      trace := s.trace ++ redirect_events os s.trace.length g O_RDONLY 0 STDIN_FILENO },
      ?_, ?_, ?_⟩
    · rw [hsplit, hB]
      exact redirect_input_some os hok _ B' g s hnot
    · rfl
    · rw [hsplit]
      exact takeWhile_ne_append _ B "<" hnot
  · have hnot : "<" ∉ pre ++ o :: f :: rest := by
      simp only [List.mem_append, List.mem_cons, not_or]
      exact ⟨hpre, fun e => ho e.symm, fun e => hf e.symm, hin⟩
    exact ⟨rest, s, redirect_input_none os _ s hnot, rfl, takeWhile_ne_self _ "<" hnot⟩

theorem redirect_both_eq (os : OS) (hok : ∀ n, os.ret n ≠ -1) (tokens : strvec_t) (s : Sys)
    (hA : filenames_follow tokens = true) (hB : append_shadowed tokens = false) :
    ∃ s4, redirect_both os tokens s = (none, tokens.takeWhile (fun t => !is_redir t), s4) ∧
      s4.err = s.err := by
  have hsplit := (List.takeWhile_append_dropWhile (fun t => !is_redir t) tokens).symm
  have hP : ∀ t ∈ tokens.takeWhile (fun t => !is_redir t), is_redir t = false := by
    intro t ht
    simpa using List.mem_takeWhile_imp ht
  have hPin : "<" ∉ tokens.takeWhile (fun t => !is_redir t) := fun h => by
    have := hP _ h; simp [is_redir] at this
  have hPout : ">" ∉ tokens.takeWhile (fun t => !is_redir t) := fun h => by
    have := hP _ h; simp [is_redir] at this
  have hPapp : ">>" ∉ tokens.takeWhile (fun t => !is_redir t) := fun h => by
    have := hP _ h; simp [is_redir] at this
  generalize tokens.takeWhile (fun t => !is_redir t) = P at hsplit hP hPin hPout hPapp ⊢
  have hR : tokens.dropWhile (fun t => !is_redir t) = [] ∨
      ∃ o R', tokens.dropWhile (fun t => !is_redir t) = o :: R' ∧ is_redir o = true := by
    cases hd : tokens.dropWhile (fun t => !is_redir t) with
    | nil => exact Or.inl rfl
    | cons o R' =>
      refine Or.inr ⟨o, R', rfl, ?_⟩
      have := List.head_dropWhile_not (fun t => !is_redir t) tokens
        (by rw [hd]; exact List.cons_ne_nil _ _)
      simpa [hd] using this
  generalize tokens.dropWhile (fun t => !is_redir t) = R at hsplit hR
  subst hsplit
  rcases hR with rfl | ⟨o, R', rfl, ho⟩
  · rw [List.append_nil] at *
    refine ⟨s, ?_, rfl⟩
    simp only [redirect_both, redirect_input_none os P s hPin,
      redirect_output_none os P s hPout hPapp]
  · obtain ⟨f, R'', rfl, hf⟩ := filenames_follow_split P R' o hA ho
    have hf1 : f ≠ "<" := fun e => by subst e; simp [is_redir] at hf
    rcases (is_redir_iff o).1 ho with rfl | rfl | rfl
    · refine ⟨{ s with
        trace := s.trace ++ redirect_events os s.trace.length f O_RDONLY 0 STDIN_FILENO },
        ?_, rfl⟩
      simp only [redirect_both, redirect_input_some os hok P R'' f s hPin]
      exact redirect_output_none os P _ hPout hPapp
    · obtain ⟨A, s3, h3, herr, _⟩ := redirect_input_after os hok P R'' ">" f s hPin
        (by decide) hf1 hA
      refine ⟨{ s3 with
        trace := s3.trace ++
          redirect_events os s3.trace.length f (O_CREAT ||| O_WRONLY ||| O_TRUNC)
            (S_IRUSR ||| S_IWUSR) STDOUT_FILENO }, ?_, herr⟩
      simp only [redirect_both, h3]
      exact redirect_output_trunc os hok P A f s3 hPout
    · obtain ⟨A, s3, h3, herr, htw⟩ := redirect_input_after os hok P R'' ">>" f s hPin
        (by decide) hf1 hA
      have hno' : ">" ∉ P ++ ">>" :: f :: A := by
        rw [← htw]
        have hd := dropWhile_plain P (f :: R'') ">>" hP (by decide)
        simp only [append_shadowed, hd, beq_self_eq_true, Bool.true_and,
          decide_eq_false_iff_not] at hB
        exact hB
      refine ⟨{ s3 with
        trace := s3.trace ++
          redirect_events os s3.trace.length f (O_CREAT ||| O_WRONLY ||| O_APPEND)
            (S_IRUSR ||| S_IWUSR) STDOUT_FILENO }, ?_, herr⟩
      simp only [redirect_both, h3]
      exact redirect_output_append os hok P A f s3 hPapp hno'

theorem run_setup_redirection (os : OS) (hok : ∀ n, os.ret n ≠ -1) (tokens : strvec_t)
    (s : Sys) (hne : tokens ≠ []) (hA : filenames_follow tokens = true)
    (hB : append_shadowed tokens = false) :
    ∃ s4, run_setup os tokens s = (none, tokens.takeWhile (fun t => !is_redir t), s4) ∧
      s4.err = s.err := by
  have hlen : ¬ tokens.length = 0 := by
    rw [List.length_eq_zero]; exact hne
  simp only [run_setup, hlen, if_false, syscall, hok]
  obtain ⟨s4, h4, herr⟩ := redirect_both_eq os hok tokens
    { s with trace := s.trace ++ [Event.setpgid 0 0 (os.ret s.trace.length)] ++
        [Event.sigaction SIGTTOU (os.ret (s.trace ++
          [Event.setpgid 0 0 (os.ret s.trace.length)]).length)] ++
        [Event.sigaction SIGTTIN (os.ret (s.trace ++
          [Event.setpgid 0 0 (os.ret s.trace.length)] ++
          [Event.sigaction SIGTTOU (os.ret (s.trace ++
            [Event.setpgid 0 0 (os.ret s.trace.length)]).length)]).length)] } hA hB
  exact ⟨s4, h4, herr⟩

/-- C7, as amended: on a non-empty token list in which every redirection
operator is followed by a filename (a token that is no redirection operator)
and in which a `>>` that is the first redirection operator has no `>` after it
before the first `<`, when every system call succeeds, `run_command` reaches
`execvp` without writing an error. The argument vector holds tokens `toks`
followed by null: no redirection operator is among them, they are tokens of
the list that are neither an operator nor the filename after one, in their
order, and they begin with the tokens that come before the first redirection
operator (at most MAX_ARGS of them). -/
theorem run_command_redirection (os : OS) (tokens : strvec_t) (s : Sys)
    (hok : ∀ n, os.ret n ≠ -1) (hne : tokens ≠ []) (hA : filenames_follow tokens = true)
    (hB : append_shadowed tokens = false) :
    ∃ r tokens2 s4 s5 toks,
      run_setup os tokens s = (none, tokens2, s4) ∧ s4.err = s.err ∧
      run_command os tokens s = some (r, tokens2, s5) ∧ s5.err = s.err ∧
      s5.trace = s4.trace ++
        [Event.execvp (to_arg toks.head?) (toks.map arg_t.str ++ [arg_t.null])
          (os.ret s4.trace.length)] ∧
      (tokens.takeWhile (fun t => !is_redir t)).take MAX_ARGS <+: toks ∧
      toks.Sublist (strip_redir tokens) ∧
      (∀ t, is_redir t = true → arg_t.str t ∉ toks.map arg_t.str ++ [arg_t.null]) := by
  obtain ⟨s4, h4, herr⟩ := run_setup_redirection os hok tokens s hne hA hB
  have hhead : ((tokens.takeWhile (fun t => !is_redir t)).take MAX_ARGS).head?
      = (tokens.takeWhile (fun t => !is_redir t)).head? := by
    cases tokens.takeWhile (fun t => !is_redir t) with
    | nil => rfl
    | cons a l => rfl
  refine ⟨run_result.replaced, _, s4,
    after_exec os (tokens.takeWhile (fun t => !is_redir t)) s4,
    (tokens.takeWhile (fun t => !is_redir t)).take MAX_ARGS, h4, herr, ?_, herr, ?_,
    List.prefix_refl _, ?_, ?_⟩
  · rw [run_command_of_setup os tokens s _ s4 h4]
    simp [hok]
  · rw [hhead]; rfl
  · exact (List.take_sublist _ _).trans (takeWhile_sublist_strip tokens)
  · intro t ht hmem
    simp only [List.mem_append, List.mem_map, List.mem_singleton] at hmem
    rcases hmem with ⟨a, ha, hat⟩ | h
    · have hat' : a = t := by injection hat
      subst hat'
      have := List.mem_takeWhile_imp (List.mem_of_mem_take ha)
      simp [ht] at this
    · exact arg_t.noConfusion h

/-- C7, as stated, fails on two commands. On `cmd <` the operator is the last
token, the redirection is skipped, and `<` is passed to `execvp`. On
`cmd >> a > b` the code redirects to `b` and passes `>>` and `a` to `execvp`. -/
theorem run_command_trailing_operator :
    (["cmd", "<"] : strvec_t) ≠ [] ∧ (∀ n, os_demo.ret n ≠ -1) ∧
    run_command os_demo ["cmd", "<"] Sys.init = some (run_result.replaced, ["cmd", "<"],
      ⟨setup_trace ++ [Event.execvp (arg_t.str "cmd")
        [arg_t.str "cmd", arg_t.str "<", arg_t.null] 7], [], [], []⟩) ∧
    run_command os_demo ["cmd", ">>", "a", ">", "b"] Sys.init =
      some (run_result.replaced, ["cmd", ">>", "a"],
        ⟨setup_trace ++ [Event.open_file (some "b") 577 384 7, Event.dup2 7 1 7,
          Event.close 7 7, Event.execvp (arg_t.str "cmd")
            [arg_t.str "cmd", arg_t.str ">>", arg_t.str "a", arg_t.null] 7], [], [], []⟩) ∧
    ¬ (∀ tokens : strvec_t, tokens ≠ [] → ∀ s' file argv r tokens2,
        run_command os_demo tokens Sys.init = some (run_result.replaced, tokens2, s') →
        Event.execvp file argv r ∈ s'.trace → arg_t.str "<" ∉ argv) := by
  have h : run_command os_demo ["cmd", "<"] Sys.init = some (run_result.replaced, ["cmd", "<"],
      ⟨setup_trace ++ [Event.execvp (arg_t.str "cmd")
        [arg_t.str "cmd", arg_t.str "<", arg_t.null] 7], [], [], []⟩) := by decide
  refine ⟨by decide, fun n => by simp [os_demo], h, by decide, ?_⟩
  intro hall
  exact hall ["cmd", "<"] (by decide) _ (arg_t.str "cmd")
    [arg_t.str "cmd", arg_t.str "<", arg_t.null] 7 _ h (by decide) (by decide)

theorem run_command_redirection_witness :
    ((∀ n, os_demo.ret n ≠ -1) ∧ tokens_redir ≠ [] ∧
      filenames_follow tokens_redir = true ∧ append_shadowed tokens_redir = false) ∧
    strip_redir tokens_redir = ["cat", "-n"] ∧
    run_command os_demo tokens_redir Sys.init
      = some (run_result.replaced, ["cat", "-n"],
        ⟨setup_trace ++ [Event.open_file (some "in") 0 0 7, Event.dup2 7 0 7, Event.close 7 7,
          Event.execvp (arg_t.str "cat") [arg_t.str "cat", arg_t.str "-n", arg_t.null] 7],
          [], [], []⟩) ∧
    ∃ r tokens2 s4 s5 toks,
      run_setup os_demo tokens_redir Sys.init = (none, tokens2, s4) ∧
      s4.err = Sys.init.err ∧
      run_command os_demo tokens_redir Sys.init = some (r, tokens2, s5) ∧
      s5.err = Sys.init.err ∧
      s5.trace = s4.trace ++
        [Event.execvp (to_arg toks.head?) (toks.map arg_t.str ++ [arg_t.null])
          (os_demo.ret s4.trace.length)] ∧
      (tokens_redir.takeWhile (fun t => !is_redir t)).take MAX_ARGS <+: toks ∧
      toks.Sublist (strip_redir tokens_redir) ∧
      (∀ t, is_redir t = true → arg_t.str t ∉ toks.map arg_t.str ++ [arg_t.null]) :=
  ⟨⟨fun n => by simp [os_demo], by decide, by decide, by decide⟩, by decide, by decide,
    run_command_redirection os_demo tokens_redir Sys.init
      (fun n => by simp [os_demo]) (by decide) (by decide) (by decide)⟩

theorem children_append (tr evs : List Event) :
    children (tr ++ evs) = evs.foldl reap_step (children tr) := by
  simp [children, List.foldl_append]

theorem fresh_from_append (evs1 evs2 : List Event) :
    ∀ ch, fresh_from ch (evs1 ++ evs2) =
      (fresh_from ch evs1 && fresh_from (evs1.foldl reap_step ch) evs2) := by
  induction evs1 with
  | nil => intro ch; simp [fresh_from]
  | cons e es ih => intro ch; simp [fresh_from, ih, Bool.and_assoc]

theorem quiet_reap (ch : List Int) (e : Event) (h : quiet e = true) : reap_step ch e = ch := by
  cases e with
  | fork r =>
    simp only [quiet, decide_eq_true_eq] at h
    have : ¬ 0 < r := by omega
    simp [reap_step, this]
  | waitpid pid o r st =>
    simp only [quiet, Bool.or_eq_true, decide_eq_true_eq] at h
    have : ¬ (r ≠ -1 ∧ WIFSTOPPED st = false) := by
      rintro ⟨h1, h2⟩
      rcases h with h | h
      · exact h1 h
      · rw [h2] at h; cases h
    simp [reap_step, this]
  | _ => rfl

theorem quiet_foldl (evs : List Event) (h : ∀ e ∈ evs, quiet e = true) :
    ∀ ch, evs.foldl reap_step ch = ch := by
  induction evs with
  | nil => intro ch; rfl
  | cons e es ih =>
    intro ch
    rw [List.foldl_cons, quiet_reap ch e (h e (List.mem_cons_self _ _))]
    exact ih (fun e' he' => h e' (List.mem_cons_of_mem _ he')) ch

theorem StepP_trans {k1 k2 : Nat} {j1 j2 j3 : job_list_t} {t1 t2 t3 : List Event}
    (h1 : StepP k1 j1 t1 j2 t2) (h2 : StepP k2 j2 t2 j3 t3) : StepP (k1 + k2) j1 t1 j3 t3 := by
  obtain ⟨e1, rfl, w1, l1, i1⟩ := h1
  obtain ⟨e2, rfl, w2, l2, i2⟩ := h2
  refine ⟨e1 ++ e2, by simp, fun h => w2 (w1 h), by omega, ?_⟩
  intro hf hinv
  rw [fresh_from_append, Bool.and_eq_true] at hf
  apply i2 _ (i1 hf.1 hinv)
  rw [children_append]
  exact hf.2

theorem StepP_mono {k k' : Nat} {j1 j2 : job_list_t} {t1 t2 : List Event}
    (h : StepP k j1 t1 j2 t2) (hk : k ≤ k') : StepP k' j1 t1 j2 t2 := by
  obtain ⟨e, he, w, l, i⟩ := h
  exact ⟨e, he, w, by omega, i⟩

/-- A change of the Registry that drops jobs or changes statuses, with system
calls that reap nothing. -/
theorem StepP_sub (jobs jobs' : job_list_t) (tr evs : List Event)
    (hp : (jobs'.map job_t.pid).Sublist (jobs.map job_t.pid))
    (ha : (jobs'.map job_t.addr).Sublist (jobs.map job_t.addr))
    (h : ∀ e ∈ evs, quiet e = true) : StepP 0 jobs tr jobs' (tr ++ evs) := by
  refine ⟨evs, rfl, fun hw => List.Nodup.sublist ha hw, ?_, ?_⟩
  · have := ha.length_le
    simpa using this
  · intro _ hinv
    refine ⟨List.Nodup.sublist hp hinv.1, ?_⟩
    rw [children_append, quiet_foldl evs h]
    intro j hj
    have hmem : j.pid ∈ jobs.map job_t.pid := hp.subset (List.mem_map_of_mem _ hj)
    obtain ⟨j0, hj0, he⟩ := List.mem_map.1 hmem
    rw [← he]
    exact hinv.2 j0 hj0

theorem StepP_quiet (jobs : job_list_t) (tr evs : List Event)
    (h : ∀ e ∈ evs, quiet e = true) : StepP 0 jobs tr jobs (tr ++ evs) :=
  StepP_sub jobs jobs tr evs (List.Sublist.refl _) (List.Sublist.refl _) h

theorem StepP_refl (jobs : job_list_t) (tr : List Event) : StepP 0 jobs tr jobs tr := by
  simpa using StepP_quiet jobs tr [] (by simp)

/-- A wait that reports the end of the process of one job, and the removal of
that job. -/
theorem StepP_reap (pre rest : job_list_t) (job : job_t) (tr : List Event) (o r st : Int)
    (hr : r ≠ -1) (hs : WIFSTOPPED st = false) :
    StepP 0 (pre ++ job :: rest) tr (pre ++ rest)
      (tr ++ [Event.waitpid job.pid o r st]) := by
  refine ⟨_, rfl, wf_drop, by simp, ?_⟩
  intro _ hinv
  obtain ⟨hnd, hin⟩ := hinv
  have hsub : ((pre ++ rest).map job_t.pid).Sublist ((pre ++ job :: rest).map job_t.pid) := by
    rw [List.map_append, List.map_append, List.map_cons]
    exact List.Sublist.append_left (List.sublist_cons_self _ _) _
  refine ⟨List.Nodup.sublist hsub hnd, ?_⟩
  intro j hj
  rw [children_append]
  simp only [List.foldl_cons, List.foldl_nil, reap_step, hr, hs, ne_eq, not_false_eq_true,
    and_self, if_true]
  rw [List.mem_filter]
  refine ⟨hin j ?_, ?_⟩
  · rcases List.mem_append.1 hj with h | h
    · exact List.mem_append_left _ h
    · exact List.mem_append_right _ (List.mem_cons_of_mem _ h)
  · rw [List.map_append, List.map_cons, List.nodup_append] at hnd
    obtain ⟨_, h2, h3⟩ := hnd
    rw [List.nodup_cons] at h2
    have hne : j.pid ≠ job.pid := by
      intro e
      rcases List.mem_append.1 hj with h | h
      · exact h3 (List.mem_map_of_mem _ h) (by rw [e]; exact List.mem_cons_self _ _)
      · exact h2.1 (by rw [← e]; exact List.mem_map_of_mem _ h)
    simpa using hne

theorem store_status_pid (jobs : job_list_t) (p : Nat) (st : job_status_t) :
    (store_status jobs p st).map job_t.pid = jobs.map job_t.pid := by
  unfold store_status
  rw [List.map_map]
  apply List.map_congr_left
  intro j _
  simp only [Function.comp]
  split <;> rfl

theorem store_status_addr (jobs : job_list_t) (p : Nat) (st : job_status_t) :
    (store_status jobs p st).map job_t.addr = jobs.map job_t.addr := by
  unfold store_status
  rw [List.map_map]
  apply List.map_congr_left
  intro j _
  simp only [Function.comp]
  split <;> rfl

/-- A change of the status of one job, with system calls that reap nothing. -/
theorem StepP_store (jobs : job_list_t) (p : Nat) (st : job_status_t) (tr evs : List Event)
    (h : ∀ e ∈ evs, quiet e = true) : StepP 0 jobs tr (store_status jobs p st) (tr ++ evs) :=
  StepP_sub jobs _ tr evs (by rw [store_status_pid]) (by rw [store_status_addr]) h

theorem fresh_addr_gt (jobs : job_list_t) : ∀ j ∈ jobs, j.addr < fresh_addr jobs := by
  induction jobs with
  | nil => intro j hj; cases hj
  | cons a js ih =>
    intro j hj
    simp only [fresh_addr, List.map_cons, List.foldr_cons] at ih ⊢
    rcases List.mem_cons.1 hj with h | h
    · subst h; omega
    · have := ih j h; omega

/-- A fork in the parent and the registration of the child. -/
theorem StepP_add (jobs : job_list_t) (tr : List Event) (pid : Int) (name : String)
    (st : job_status_t) (hpid : 0 < pid) :
    StepP 1 jobs tr (jobs ++ [⟨fresh_addr jobs, pid, name, st⟩]) (tr ++ [Event.fork pid]) := by
  refine ⟨_, rfl, ?_, by simp, ?_⟩
  · intro hw
    unfold wf at hw ⊢
    rw [List.map_append, List.nodup_append]
    refine ⟨hw, by simp, ?_⟩
    intro a ha hb
    simp only [List.map_cons, List.map_nil, List.mem_singleton] at hb
    obtain ⟨j, hj, rfl⟩ := List.mem_map.1 ha
    have := fresh_addr_gt jobs j hj
    omega
  · intro hf hinv
    simp only [fresh_from, hpid, true_implies, Bool.and_true, decide_eq_true_eq] at hf
    obtain ⟨hnd, hin⟩ := hinv
    have hch : children (tr ++ [Event.fork pid]) = pid :: children tr := by
      rw [children_append]; simp [reap_step, hpid]
    refine ⟨?_, ?_⟩
    · rw [List.map_append, List.nodup_append]
      refine ⟨hnd, by simp, ?_⟩
      intro a ha hb
      simp only [List.map_cons, List.map_nil, List.mem_singleton] at hb
      obtain ⟨j, hj, rfl⟩ := List.mem_map.1 ha
      exact hf (hb ▸ hin j hj)
    · intro j hj
      rw [hch]
      rcases List.mem_append.1 hj with h | h
      · exact List.mem_cons_of_mem _ (hin j h)
      · simp only [List.mem_singleton] at h
        subst h
        exact List.mem_cons_self _ _

theorem StepP_mono_R {α : Type} {k k' : Nat} {jobs : job_list_t} {tr : List Event}
    {r : Option (α × job_list_t × Sys)} (h : StepR k jobs tr r) (hk : k ≤ k') :
    StepR k' jobs tr r := by
  cases r with
  | none => trivial
  | some x => exact StepP_mono h hk

theorem StepP_reap_mid (pre rest : job_list_t) (job : job_t) (tr q1 q2 : List Event)
    (o r st : Int) (h1 : ∀ e ∈ q1, quiet e = true) (h2 : ∀ e ∈ q2, quiet e = true)
    (hr : r ≠ -1) (hs : WIFSTOPPED st = false) :
    StepP 0 (pre ++ job :: rest) tr (pre ++ rest)
      (tr ++ (q1 ++ Event.waitpid job.pid o r st :: q2)) := by
  have a := StepP_quiet (pre ++ job :: rest) tr q1 h1
  have b := StepP_reap pre rest job (tr ++ q1) o r st hr hs
  have c := StepP_quiet (pre ++ rest) (tr ++ q1 ++ [Event.waitpid job.pid o r st]) q2 h2
  have d := StepP_trans (StepP_trans a b) c
  simpa using d

theorem await_all_ref_step (os : OS) (rest : job_list_t) :
    ∀ (pre : job_list_t) (s : Sys),
      StepP 0 (pre ++ rest) s.trace (await_all_ref os pre rest s).2.1
        (await_all_ref os pre rest s).2.2.trace := by
  induction rest with
  | nil =>
    intro pre s
    simpa [await_all_ref] using StepP_refl pre s.trace
  | cons c rest ih =>
    intro pre s
    simp only [await_all_ref]
    by_cases hb : c.status = BACKGROUND
    · simp only [hb, if_true, waitpid]
      by_cases hr : os.ret s.trace.length = -1
      · simp only [hr, if_true]
        exact StepP_quiet _ _ _ (by simp [quiet])
      · simp only [hr, if_false]
        cases hs : WIFSTOPPED (wait_status os s.trace.length)
        · simp only [Bool.false_eq_true, if_false]
          have a := StepP_reap pre rest c s.trace WUNTRACED _ _ hr hs
          have b := ih pre (log_remove
            { s with trace := s.trace ++ [Event.waitpid c.pid WUNTRACED (os.ret s.trace.length)
                (wait_status os s.trace.length)] } (pre ++ c :: rest) pre.length c.addr)
          exact StepP_trans a b
        · simp only [if_true]
          have a : StepP 0 (pre ++ c :: rest) s.trace
              ((pre ++ [{ c with status := STOPPED }]) ++ rest)
              (s.trace ++ [Event.waitpid c.pid WUNTRACED (os.ret s.trace.length)
                (wait_status os s.trace.length)]) :=
            StepP_sub _ _ _ _ (by simp) (by simp) (by simp [quiet, hs])
          exact StepP_trans a (ih (pre ++ [{ c with status := STOPPED }])
            { s with trace := s.trace ++ [Event.waitpid c.pid WUNTRACED (os.ret s.trace.length)
                (wait_status os s.trace.length)] })
    · simp only [hb, if_false]
      have e : pre ++ c :: rest = (pre ++ [c]) ++ rest := by simp
      rw [e]
      exact ih _ _

theorem await_all_step (os : OS) (jobs : job_list_t) (s : Sys) (hwf : wf jobs)
    (hlen : jobs.length < 2 ^ 32) :
    StepR 0 jobs s.trace (await_all_background_jobs os jobs s) := by
  rw [await_all_eq_ref os jobs s hwf hlen]
  simpa [StepR] using await_all_ref_step os jobs [] s

theorem resume_job_step (os : OS) (tokens : strvec_t) (jobs : job_list_t) (fg : Int)
    (s : Sys) : StepR 0 jobs s.trace (resume_job os tokens jobs fg s) := by
  by_cases hl : tokens.length < 2
  · simp only [resume_job, hl, if_true, StepR]
    exact StepP_refl _ _
  cases hidx : atoi (strvec_get tokens 1) with
  | none => simp only [resume_job, hl, if_false, hidx, StepR]
  | some idx =>
    cases hjob : job_list_get jobs idx with
    | none =>
      simp only [resume_job, hl, if_false, hidx, hjob, StepR]
      exact StepP_refl _ _
    | some job =>
      simp only [resume_job, hl, if_false, hidx, hjob]
      obtain ⟨pre, rest, rfl, hpre⟩ := job_list_get_split hjob
      subst hpre
      simp only [syscall, waitpid]
      by_cases hfg : fg ≠ 0
      · simp only [hfg, if_true, ne_eq, not_false_eq_true]
        by_cases h0 : os.ret s.trace.length = -1
        · simp only [h0, if_true, StepR]
          exact StepP_quiet _ _ _ (by simp [quiet])
        simp only [h0, if_false]
        by_cases h1 : os.ret (s.trace ++
            [Event.tcsetpgrp STDIN_FILENO job.pid (os.ret s.trace.length)]).length = -1
        · simp only [h1, if_true, StepR]
          have := StepP_quiet (pre ++ job :: rest) s.trace
            [Event.tcsetpgrp STDIN_FILENO job.pid (os.ret s.trace.length),
             Event.kill job.pid SIGCONT (-1)] (by simp [quiet])
          simpa [perror] using this
        simp only [h1, if_false]
        generalize hr2 : os.ret (s.trace ++
            [Event.tcsetpgrp STDIN_FILENO job.pid (os.ret s.trace.length)] ++
            [Event.kill job.pid SIGCONT (os.ret (s.trace ++
              [Event.tcsetpgrp STDIN_FILENO job.pid (os.ret s.trace.length)]).length)]).length
          = r2
        generalize hst2 : wait_status os (s.trace ++
            [Event.tcsetpgrp STDIN_FILENO job.pid (os.ret s.trace.length)] ++
            [Event.kill job.pid SIGCONT (os.ret (s.trace ++
              [Event.tcsetpgrp STDIN_FILENO job.pid (os.ret s.trace.length)]).length)]).length
          = st2
        generalize os.ret (s.trace ++
            [Event.tcsetpgrp STDIN_FILENO job.pid (os.ret s.trace.length)]).length = r1
        generalize os.ret s.trace.length = r0
        by_cases h2 : r2 = -1
        · simp only [h2, if_true, StepR]
          have := StepP_quiet (pre ++ job :: rest) s.trace
            [Event.tcsetpgrp STDIN_FILENO job.pid r0, Event.kill job.pid SIGCONT r1,
             Event.waitpid job.pid WUNTRACED (-1) st2] (by simp [quiet])
          simpa [perror] using this
        simp only [h2, if_false]
        cases hs : WIFSTOPPED st2
        · simp only [Bool.not_false, if_true, job_list_remove_append_cons, log_remove]
          have key : ∀ r3 : Int, StepP 0 (pre ++ job :: rest) s.trace (pre ++ rest)
              (s.trace ++ [Event.tcsetpgrp STDIN_FILENO job.pid r0,
                Event.kill job.pid SIGCONT r1, Event.waitpid job.pid WUNTRACED r2 st2,
                Event.tcsetpgrp STDIN_FILENO os.self_pid r3]) := fun r3 =>
            StepP_reap_mid pre rest job s.trace
              [Event.tcsetpgrp STDIN_FILENO job.pid r0, Event.kill job.pid SIGCONT r1]
              [Event.tcsetpgrp STDIN_FILENO os.self_pid r3] WUNTRACED r2 st2
              (by simp [quiet]) (by simp [quiet]) h2 hs
          split <;> simpa [StepR, perror] using key _
        · simp only [Bool.not_true, Bool.false_eq_true, if_false]
          have key : ∀ r3 : Int, StepP 0 (pre ++ job :: rest) s.trace
              (store_status (pre ++ job :: rest) job.addr STOPPED)
              (s.trace ++ [Event.tcsetpgrp STDIN_FILENO job.pid r0,
                Event.kill job.pid SIGCONT r1, Event.waitpid job.pid WUNTRACED r2 st2,
                Event.tcsetpgrp STDIN_FILENO os.self_pid r3]) := fun r3 =>
            StepP_store _ _ _ _ _ (by simp [quiet, hs])
          split <;> simpa [StepR, perror] using key _
      · have hfg0 : fg = 0 := by simpa using hfg
        simp only [hfg0, ne_eq, not_true_eq_false, if_false]
        by_cases h1 : os.ret s.trace.length = -1
        · simp only [h1, if_true, StepR]
          have : (0 : Int) ≠ -1 := by decide
          simp only [this, if_false]
          exact StepP_quiet _ _ _ (by simp [quiet])
        · have : (0 : Int) ≠ -1 := by decide
          simp only [h1, this, if_false, StepR]
          exact StepP_store _ _ _ _ _ (by simp [quiet])

theorem await_background_job_step (os : OS) (tokens : strvec_t) (jobs : job_list_t)
    (s : Sys) : StepR 0 jobs s.trace (await_background_job os tokens jobs s) := by
  by_cases hl : tokens.length < 2
  · simp only [await_background_job, hl, if_true, StepR]
    exact StepP_refl _ _
  cases hidx : atoi (strvec_get tokens 1) with
  | none => simp only [await_background_job, hl, if_false, hidx, StepR]
  | some idx =>
    cases hjob : job_list_get jobs idx with
    | none =>
      simp only [await_background_job, hl, if_false, hidx, hjob, StepR]
      exact StepP_refl _ _
    | some job =>
      simp only [await_background_job, hl, if_false, hidx, hjob]
      obtain ⟨pre, rest, rfl, hpre⟩ := job_list_get_split hjob
      subst hpre
      by_cases hb : job.status ≠ BACKGROUND
      · simp only [hb, if_true, ne_eq, not_false_eq_true, StepR]
        exact StepP_refl _ _
      simp only [hb, if_false, waitpid]
      by_cases hr : os.ret s.trace.length = -1
      · simp only [hr, if_true, StepR]
        exact StepP_quiet _ _ _ (by simp [quiet])
      simp only [hr, if_false]
      cases hs : WIFSTOPPED (wait_status os s.trace.length)
      · simp only [Bool.not_false, if_true, job_list_remove_append_cons, log_remove, StepR]
        exact StepP_reap pre rest job s.trace WUNTRACED _ _ hr hs
      · simp only [Bool.not_true, Bool.false_eq_true, if_false, StepR]
        exact StepP_store _ _ _ _ _ (by simp [quiet, hs])

theorem QExt_refl (tr : List Event) : QExt tr tr := ⟨[], by simp, by simp⟩

theorem QExt_snoc {tr tr1 : List Event} {e : Event} (h : QExt tr tr1) (he : quiet e = true) :
    QExt tr (tr1 ++ [e]) := by
  obtain ⟨evs, rfl, hq⟩ := h
  refine ⟨evs ++ [e], by simp, ?_⟩
  intro x hx
  rcases List.mem_append.1 hx with h | h
  · exact hq x h
  · simp only [List.mem_singleton] at h; subst h; exact he

theorem QExt_trans {t1 t2 t3 : List Event} (h1 : QExt t1 t2) (h2 : QExt t2 t3) : QExt t1 t3 := by
  obtain ⟨e1, rfl, q1⟩ := h1
  obtain ⟨e2, rfl, q2⟩ := h2
  refine ⟨e1 ++ e2, by simp, ?_⟩
  intro x hx
  rcases List.mem_append.1 hx with h | h
  · exact q1 x h
  · exact q2 x h

theorem redirect_input_quiet (os : OS) (tokens : strvec_t) (s : Sys) :
    QExt s.trace (redirect_input os tokens s).2.2.trace := by
  simp only [redirect_input, syscall]
  split_ifs <;> dsimp only [perror] <;>
    repeat (first | exact QExt_refl _ | refine QExt_snoc ?_ rfl)

theorem redirect_output_quiet (os : OS) (tokens : strvec_t) (s : Sys) :
    QExt s.trace (redirect_output os tokens s).2.2.trace := by
  simp only [redirect_output, syscall]
  split_ifs <;> dsimp only [perror] <;>
    repeat (first | exact QExt_refl _ | refine QExt_snoc ?_ rfl)

theorem redirect_both_quiet (os : OS) (tokens : strvec_t) (s : Sys) :
    QExt s.trace (redirect_both os tokens s).2.2.trace := by
  have h1 := redirect_input_quiet os tokens s
  unfold redirect_both
  rcases hri : redirect_input os tokens s with ⟨code, tokens1, s3⟩
  rw [hri] at h1
  cases code with
  | some c => exact h1
  | none => exact QExt_trans h1 (redirect_output_quiet os tokens1 s3)

theorem run_setup_quiet (os : OS) (tokens : strvec_t) (s : Sys) :
    QExt s.trace (run_setup os tokens s).2.2.trace := by
  simp only [run_setup, syscall]
  split_ifs <;> dsimp only [perror, eprint] <;>
    first
    | exact QExt_refl _
    | (refine QExt_trans ?_ (redirect_both_quiet os _ _)
       repeat (first | exact QExt_refl _ | refine QExt_snoc ?_ rfl))
    | (repeat (first | exact QExt_refl _ | refine QExt_snoc ?_ rfl))

theorem run_command_quiet (os : OS) (tokens : strvec_t) (s : Sys) :
    ∀ r tokens2 s', run_command os tokens s = some (r, tokens2, s') → QExt s.trace s'.trace := by
  intro r tokens2 s' h
  have h1 := run_setup_quiet os tokens s
  rcases hrs : run_setup os tokens s with ⟨code, t2, s4⟩
  rw [hrs] at h1
  cases code with
  | some c =>
    simp only [run_command, hrs, Option.some.injEq, Prod.mk.injEq] at h
    obtain ⟨_, _, rfl⟩ := h
    exact h1
  | none =>
    rw [run_command_of_setup os tokens s t2 s4 hrs] at h
    split_ifs at h <;>
    · simp only [Option.some.injEq, Prod.mk.injEq] at h
      obtain ⟨_, _, rfl⟩ := h
      exact QExt_snoc h1 rfl

theorem launch_child_step (os : OS) (tokens : strvec_t) (jobs : job_list_t) (tr : List Event)
    (s : Sys) (h : QExt tr s.trace) : StepR 0 jobs tr (launch_child os tokens jobs s) := by
  unfold launch_child
  rcases hrc : run_command os tokens s with _ | ⟨r, t2, s'⟩
  · trivial
  · have hq := QExt_trans h (run_command_quiet os tokens s r t2 s' hrc)
    obtain ⟨evs, he, hq⟩ := hq
    cases r <;>
    · simp only [StepR]
      rw [he]
      exact StepP_quiet _ _ _ hq

theorem launch_step (os : OS) (tokens : strvec_t) (jobs : job_list_t) (s : Sys) :
    StepR 1 jobs s.trace (launch os tokens jobs s) := by
  unfold launch
  cases hlast : strvec_get tokens (tokens.length - 1) with
  | none => trivial
  | some last =>
    simp only [syscall, waitpid]
    generalize hpid : os.ret s.trace.length = pid
    by_cases hneg : pid < 0
    · simp only [hneg, if_true, StepR]
      exact StepP_mono (StepP_quiet jobs s.trace [Event.fork pid]
        (by simp only [List.mem_singleton, forall_eq, quiet, decide_eq_true_eq]; omega))
        (Nat.zero_le _)
    simp only [hneg, if_false]
    by_cases hz : pid = 0
    · simp only [hz, if_true]
      exact StepP_mono_R (launch_child_step os _ jobs s.trace _
        (QExt_snoc (QExt_refl _) (by simp [quiet]))) (Nat.zero_le _)
    simp only [hz, if_false]
    have hpos : 0 < pid := by omega
    by_cases hbg : (last == "&") = true
    · simp only [hbg, if_true]
      cases hname : strvec_get (strvec_take tokens (tokens.length - 1)) 0 with
      | none => simp only [job_list_add, StepR]
      | some nm =>
        simp only [job_list_add, StepR]
        exact StepP_add jobs s.trace pid nm BACKGROUND hpos
    · simp only [hbg, Bool.false_eq_true, if_false]
      generalize hr1 : os.ret (s.trace ++ [Event.fork pid]).length = r1
      have hl1 : ∀ (m : String), (if r1 = -1 then
          perror { s with trace := s.trace ++ [Event.fork pid] ++
            [Event.tcsetpgrp STDIN_FILENO pid r1] } m
          else { s with trace := s.trace ++ [Event.fork pid] ++
            [Event.tcsetpgrp STDIN_FILENO pid r1] }).trace
          = s.trace ++ [Event.fork pid] ++ [Event.tcsetpgrp STDIN_FILENO pid r1] := by
        intro m; split <;> rfl
      simp only [hl1]
      generalize hr2 : os.ret (s.trace ++ [Event.fork pid] ++
        [Event.tcsetpgrp STDIN_FILENO pid r1]).length = r2
      generalize hst : wait_status os (s.trace ++ [Event.fork pid] ++
        [Event.tcsetpgrp STDIN_FILENO pid r1]).length = st
      have hl2 : ∀ (m : String) (s0 : Sys), (if r2 = -1 then
          perror { s0 with trace := s.trace ++ [Event.fork pid] ++
            [Event.tcsetpgrp STDIN_FILENO pid r1] ++ [Event.waitpid pid WUNTRACED r2 st] } m
          else { s0 with trace := s.trace ++ [Event.fork pid] ++
            [Event.tcsetpgrp STDIN_FILENO pid r1] ++
            [Event.waitpid pid WUNTRACED r2 st] }).trace
          = s.trace ++ [Event.fork pid] ++ [Event.tcsetpgrp STDIN_FILENO pid r1] ++
            [Event.waitpid pid WUNTRACED r2 st] := by
        intro m s0; split <;> rfl
      simp only [hl2]
      generalize os.ret (s.trace ++ [Event.fork pid] ++
        [Event.tcsetpgrp STDIN_FILENO pid r1] ++ [Event.waitpid pid WUNTRACED r2 st]).length = r3
      have hadd := fun nm st0 => StepP_add jobs s.trace pid nm st0 hpos
      cases hs : WIFSTOPPED st
      · simp only [Bool.false_eq_true, if_false, StepR]
        have hrest : StepP 0 (jobs ++ [⟨fresh_addr jobs, pid, "", STOPPED⟩])
            (s.trace ++ [Event.fork pid]) jobs
            (s.trace ++ [Event.fork pid] ++ ([Event.tcsetpgrp STDIN_FILENO pid r1] ++
              Event.waitpid pid WUNTRACED r2 st ::
              [Event.tcsetpgrp STDIN_FILENO os.self_pid r3])) := by
          by_cases h2 : r2 = -1
          · exact StepP_sub _ _ _ _ (by simp) (by simp) (by simp [quiet, h2])
          · have := StepP_reap_mid jobs [] ⟨fresh_addr jobs, pid, "", STOPPED⟩
              (s.trace ++ [Event.fork pid]) [Event.tcsetpgrp STDIN_FILENO pid r1]
              [Event.tcsetpgrp STDIN_FILENO os.self_pid r3] WUNTRACED r2 st
              (by simp [quiet]) (by simp [quiet]) h2 hs
            simpa using this
        have := StepP_trans (hadd "" STOPPED) hrest
        split <;> simpa [perror] using this
      · simp only [if_true]
        cases hname : strvec_get tokens 0 with
        | none => simp only [job_list_add, StepR]
        | some nm =>
          simp only [job_list_add, StepR]
          have hrest := StepP_quiet (jobs ++ [⟨fresh_addr jobs, pid, nm, STOPPED⟩])
            (s.trace ++ [Event.fork pid])
            [Event.tcsetpgrp STDIN_FILENO pid r1, Event.waitpid pid WUNTRACED r2 st,
              Event.tcsetpgrp STDIN_FILENO os.self_pid r3] (by simp [quiet, hs])
          have := StepP_trans (hadd nm STOPPED) hrest
          split <;> simpa [perror] using this

theorem StepR_end_turn {k : Nat} {jobs : job_list_t} {tr : List Event}
    {r : Option (ctl_t × job_list_t × Sys)} (h : StepR k jobs tr r) :
    StepR k jobs tr (end_turn r) := by
  rcases r with _ | ⟨c, j, s⟩
  · trivial
  · cases c <;> exact h

theorem StepR_builtin {k : Nat} {jobs : job_list_t} {tr : List Event}
    {r : Option (Int × job_list_t × Sys)} (msg : String) (h : StepR k jobs tr r) :
    StepR k jobs tr (builtin r msg) := by
  rcases r with _ | ⟨c, j, s⟩
  · trivial
  · simp only [builtin, StepR] at h ⊢
    split <;> exact h

theorem print_jobs_trace (jobs : job_list_t) : ∀ (i : Nat) (s : Sys),
    (print_jobs jobs i s).trace = s.trace := by
  induction jobs with
  | nil => intro i s; rfl
  | cons j js ih => intro i s; simp only [print_jobs]; rw [ih]; rfl

theorem main_body_step (os : OS) (tokens : strvec_t) (jobs : job_list_t) (s : Sys)
    (hwf : wf jobs) (hlen : jobs.length < 2 ^ 32) :
    StepR 1 jobs s.trace (main_body os tokens jobs s) := by
  have hrefl : StepP 1 jobs s.trace jobs s.trace := StepP_mono (StepP_refl _ _) (Nat.zero_le _)
  by_cases h0 : tokens.length = 0
  · simp only [main_body, h0, if_true, StepR]
    exact hrefl
  cases hfirst : strvec_get tokens 0 with
  | none => simp only [main_body, h0, if_false, hfirst, StepR]
  | some first_token =>
    simp only [main_body, h0, if_false, hfirst, syscall]
    by_cases h1 : first_token = "pwd"
    · simp only [h1, if_true]
      apply StepR_end_turn
      simp only [StepR]
      split <;> exact StepP_mono (StepP_quiet _ _ _ (by simp [quiet])) (Nat.zero_le _)
    simp only [h1, if_false]
    by_cases h2 : first_token = "cd"
    · simp only [h2, if_true]
      by_cases hh : tokens.length = 1 ∧ os.home = none
      · simp only [hh, and_self, if_true, StepR]
        exact hrefl
      · simp only [hh, if_false]
        apply StepR_end_turn
        simp only [StepR]
        split <;> exact StepP_mono (StepP_quiet _ _ _ (by simp [quiet])) (Nat.zero_le _)
    simp only [h2, if_false]
    by_cases h3 : first_token = "exit"
    · simp only [h3, if_true, StepR]
      exact hrefl
    simp only [h3, if_false]
    by_cases h4 : first_token = "jobs"
    · simp only [h4, if_true]
      apply StepR_end_turn
      simp only [StepR, print_jobs_trace]
      exact hrefl
    simp only [h4, if_false]
    by_cases h5 : first_token = "fg"
    · simp only [h5, if_true]
      exact StepR_end_turn (StepR_builtin _
        (StepP_mono_R (resume_job_step os tokens jobs 1 s) (Nat.zero_le _)))
    simp only [h5, if_false]
    by_cases h6 : first_token = "bg"
    · simp only [h6, if_true]
      exact StepR_end_turn (StepR_builtin _
        (StepP_mono_R (resume_job_step os tokens jobs 0 s) (Nat.zero_le _)))
    simp only [h6, if_false]
    by_cases h7 : first_token = "wait-for"
    · simp only [h7, if_true]
      exact StepR_end_turn (StepR_builtin _
        (StepP_mono_R (await_background_job_step os tokens jobs s) (Nat.zero_le _)))
    simp only [h7, if_false]
    by_cases h8 : first_token = "wait-all"
    · simp only [h8, if_true]
      exact StepR_end_turn (StepR_builtin _
        (StepP_mono_R (await_all_step os jobs s hwf hlen) (Nat.zero_le _)))
    simp only [h8, if_false]
    exact StepR_end_turn (launch_step os tokens jobs s)

theorem main_loop_step (os : OS) (cmds : List strvec_t) :
    ∀ (jobs : job_list_t) (s : Sys), wf jobs → jobs.length + cmds.length < 2 ^ 32 →
      StepR cmds.length jobs s.trace (main_loop os cmds jobs s) := by
  induction cmds with
  | nil =>
    intro jobs s _ _
    exact StepP_refl _ _
  | cons t rest ih =>
    intro jobs s hwf hlen
    have hb := main_body_step os t jobs s hwf
      (by simp only [List.length_cons] at hlen; omega)
    unfold main_loop
    rcases hmb : main_body os t jobs s with _ | ⟨c, j1, s1⟩
    · trivial
    · rw [hmb] at hb
      have hb' : StepP 1 jobs s.trace j1 s1.trace := hb
      cases c with
      | next =>
        obtain ⟨evs, he, hw, hl, hi⟩ := hb'
        have hrec := ih j1 s1 (hw hwf) (by simp only [List.length_cons] at hlen; omega)
        show StepR (rest.length + 1) jobs s.trace (main_loop os rest j1 s1)
        rcases hml : main_loop os rest j1 s1 with _ | ⟨c2, j2, s2⟩
        · trivial
        · rw [hml] at hrec
          have h2 : StepP rest.length j1 s1.trace j2 s2.trace := hrec
          exact StepP_mono (StepP_trans ⟨evs, he, hw, hl, hi⟩ h2) (by omega)
      | stop code => exact StepP_mono hb' (by simp)
      | replaced => exact StepP_mono hb' (by simp)

theorem run_command_defined (os : OS) (tokens : strvec_t) (s : Sys) :
    run_command os tokens s ≠ none := by
  rcases hrs : run_setup os tokens s with ⟨code, t2, s4⟩
  cases code with
  | some c => simp [run_command, hrs]
  | none =>
    rw [run_command_of_setup os tokens s t2 s4 hrs]
    simp

theorem launch_child_defined (os : OS) (tokens : strvec_t) (jobs : job_list_t) (s : Sys) :
    launch_child os tokens jobs s ≠ none := by
  unfold launch_child
  rcases hrc : run_command os tokens s with _ | ⟨r, t2, s'⟩
  · exact absurd hrc (run_command_defined os tokens s)
  · cases r <;> simp

theorem resume_job_defined (os : OS) (tokens : strvec_t) (jobs : job_list_t) (fg : Int)
    (s : Sys) (h : 2 ≤ tokens.length → atoi (strvec_get tokens 1) ≠ none) :
    resume_job os tokens jobs fg s ≠ none := by
  by_cases hl : tokens.length < 2
  · simp [resume_job, hl]
  cases hidx : atoi (strvec_get tokens 1) with
  | none => exact absurd hidx (h (by omega))
  | some idx =>
    cases hjob : job_list_get jobs idx with
    | none => simp [resume_job, hl, hidx, hjob]
    | some job =>
      simp only [resume_job, hl, if_false, hidx, hjob]
      split_ifs <;> simp

theorem await_background_job_defined (os : OS) (tokens : strvec_t) (jobs : job_list_t)
    (s : Sys) (h : 2 ≤ tokens.length → atoi (strvec_get tokens 1) ≠ none) :
    await_background_job os tokens jobs s ≠ none := by
  by_cases hl : tokens.length < 2
  · simp [await_background_job, hl]
  cases hidx : atoi (strvec_get tokens 1) with
  | none => exact absurd hidx (h (by omega))
  | some idx =>
    cases hjob : job_list_get jobs idx with
    | none => simp [await_background_job, hl, hidx, hjob]
    | some job =>
      simp only [await_background_job, hl, if_false, hidx, hjob]
      split_ifs <;> simp

theorem end_turn_defined {r : Option (ctl_t × job_list_t × Sys)} (h : r ≠ none) :
    end_turn r ≠ none := by
  rcases r with _ | ⟨c, j, s⟩
  · exact absurd rfl h
  · cases c <;> simp [end_turn]

theorem builtin_defined {r : Option (Int × job_list_t × Sys)} (msg : String) (h : r ≠ none) :
    builtin r msg ≠ none := by
  rcases r with _ | ⟨c, j, s⟩
  · exact absurd rfl h
  · simp [builtin]

theorem ite_some_ne_none {α : Type} (c : Prop) [Decidable c] (a b : α) :
    (if c then some a else some b) ≠ none := by
  split <;> exact Option.some_ne_none _

theorem launch_defined (os : OS) (tokens : strvec_t) (jobs : job_list_t) (s : Sys)
    (hne : tokens ≠ []) (hamp : tokens ≠ ["&"]) : launch os tokens jobs s ≠ none := by
  obtain ⟨first, rest, rfl⟩ := List.exists_cons_of_ne_nil hne
  have hlast : ∃ last, strvec_get (first :: rest) ((first :: rest).length - 1) = some last := by
    refine ⟨(first :: rest)[(first :: rest).length - 1], ?_⟩
    unfold strvec_get
    exact List.getElem?_eq_getElem _
  obtain ⟨last, hlast⟩ := hlast
  have hfirst : strvec_get (first :: rest) 0 = some first := by simp [strvec_get]
  simp only [launch, hlast, syscall]
  by_cases h1 : os.ret s.trace.length < 0
  · simp [h1]
  simp only [h1, if_false]
  by_cases h2 : os.ret s.trace.length = 0
  · simp only [h2, if_true]
    exact launch_child_defined os _ jobs _
  simp only [h2, if_false]
  by_cases h3 : (last == "&") = true
  · simp only [h3, if_true]
    have hrest : rest ≠ [] := by
      intro hr
      subst hr
      simp only [strvec_get, List.length_singleton, Nat.sub_self, List.getElem?_cons_zero,
        Option.some.injEq] at hlast
      subst hlast
      simp only [beq_iff_eq] at h3
      subst h3
      exact hamp rfl
    obtain ⟨x, xs, rfl⟩ := List.exists_cons_of_ne_nil hrest
    simp [strvec_get, strvec_take, job_list_add]
  · simp only [h3, Bool.false_eq_true, if_false, hfirst, job_list_add]
    exact ite_some_ne_none _ _ _

theorem main_body_defined (os : OS) (tokens : strvec_t) (jobs : job_list_t) (s : Sys)
    (hwf : wf jobs) (hlen : jobs.length < 2 ^ 32) (hd : defined_cmd tokens) :
    main_body os tokens jobs s ≠ none := by
  by_cases h0 : tokens.length = 0
  · simp [main_body, h0]
  have hne : tokens ≠ [] := fun h => h0 (by rw [h]; rfl)
  obtain ⟨first, rest, rfl⟩ := List.exists_cons_of_ne_nil hne
  have hfirst : strvec_get (first :: rest) 0 = some first := by simp [strvec_get]
  have hidx : 2 ≤ (first :: rest).length → atoi (strvec_get (first :: rest) 1) ≠ none := by
    intro h2
    obtain ⟨x, xs, rfl⟩ := List.exists_cons_of_ne_nil
      (show rest ≠ [] from fun h => by subst h; simp at h2)
    simp [strvec_get, atoi]
  simp only [main_body, h0, if_false, hfirst, syscall]
  by_cases h1 : first = "pwd"
  · simp only [h1, if_true]; exact end_turn_defined (by simp)
  simp only [h1, if_false]
  by_cases h2 : first = "cd"
  · simp only [h2, if_true]
    split_ifs <;>
      first
      | exact end_turn_defined (Option.some_ne_none _)
      | exact Option.some_ne_none _
  simp only [h2, if_false]
  by_cases h3 : first = "exit"
  · simp [h3]
  simp only [h3, if_false]
  by_cases h4 : first = "jobs"
  · simp only [h4, if_true]; exact end_turn_defined (by simp)
  simp only [h4, if_false]
  by_cases h5 : first = "fg"
  · simp only [h5, if_true]
    exact end_turn_defined (builtin_defined _
      (resume_job_defined os _ jobs 1 s (h5 ▸ hidx)))
  simp only [h5, if_false]
  by_cases h6 : first = "bg"
  · simp only [h6, if_true]
    exact end_turn_defined (builtin_defined _
      (resume_job_defined os _ jobs 0 s (h6 ▸ hidx)))
  simp only [h6, if_false]
  by_cases h7 : first = "wait-for"
  · simp only [h7, if_true]
    exact end_turn_defined (builtin_defined _
      (await_background_job_defined os _ jobs s (h7 ▸ hidx)))
  simp only [h7, if_false]
  by_cases h8 : first = "wait-all"
  · simp only [h8, if_true]
    apply end_turn_defined
    apply builtin_defined
    rw [await_all_eq_ref os jobs s hwf hlen]
    simp
  simp only [h8, if_false]
  exact end_turn_defined (launch_defined os _ jobs s hne hd)

theorem main_loop_defined (os : OS) (cmds : List strvec_t) :
    ∀ (jobs : job_list_t) (s : Sys), wf jobs → jobs.length + cmds.length < 2 ^ 32 →
      (∀ t ∈ cmds, defined_cmd t) → main_loop os cmds jobs s ≠ none := by
  induction cmds with
  | nil => intro jobs s _ _ _; simp [main_loop]
  | cons t rest ih =>
    intro jobs s hwf hlen hd
    have hjl : jobs.length < 2 ^ 32 := by simp only [List.length_cons] at hlen; omega
    have hb := main_body_step os t jobs s hwf hjl
    have hdef := main_body_defined os t jobs s hwf hjl (hd t (List.mem_cons_self _ _))
    unfold main_loop
    rcases hmb : main_body os t jobs s with _ | ⟨c, j1, s1⟩
    · exact absurd hmb hdef
    · rw [hmb] at hb
      obtain ⟨evs, he, hw, hl, hi⟩ := (hb : StepP 1 jobs s.trace j1 s1.trace)
      cases c with
      | next =>
        exact ih j1 s1 (hw hwf) (by simp only [List.length_cons] at hlen; omega)
          (fun t' ht' => hd t' (List.mem_cons_of_mem _ ht'))
      | stop code => simp
      | replaced => simp

/-- C6: from the empty Registry, for any sequence of command lines: the loop of
`main` is defined on it as long as no command line is the lone `&`; and
whenever every fork of the run returned a process identifier that no unreaped
child held, no two Jobs of the resulting Registry have the same process
identifier (and every Job is an unreaped child). -/
theorem registry_pids_distinct (os : OS) (cmds : List strvec_t) (hlen : cmds.length < 2 ^ 32) :
    ((∀ t ∈ cmds, defined_cmd t) → ∃ r, main_loop os cmds [] Sys.init = some r) ∧
    ∀ (ctl : ctl_t) (jobs : job_list_t) (s' : Sys),
      main_loop os cmds [] Sys.init = some (ctl, jobs, s') →
      fresh_from [] s'.trace = true →
      (jobs.map job_t.pid).Nodup ∧ ∀ j ∈ jobs, j.pid ∈ children s'.trace := by
  refine ⟨?_, ?_⟩
  · intro hd
    have h := main_loop_defined os cmds [] Sys.init (by simp [wf]) (by simpa using hlen) hd
    exact Option.ne_none_iff_exists'.1 h
  · intro ctl jobs s' hrun hfresh
    have h := main_loop_step os cmds [] Sys.init (by simp [wf]) (by simpa using hlen)
    rw [hrun] at h
    obtain ⟨evs, he, _, _, hi⟩ := h
    have he' : s'.trace = evs := by simpa [Sys.init] using he
    apply hi
    · rw [← he']; exact hfresh
    · exact ⟨by simp, by simp⟩

theorem registry_pids_distinct_witness :
    cmds_demo.length < 2 ^ 32 ∧ (∀ t ∈ cmds_demo, defined_cmd t) ∧
    main_loop os_pids cmds_demo [] Sys.init =
      some (ctl_t.stop 0, [⟨1, 10, "sleep", BACKGROUND⟩, ⟨2, 19, "top", BACKGROUND⟩], sys_demo) ∧
    fresh_from [] sys_demo.trace = true ∧
    (([⟨1, 10, "sleep", BACKGROUND⟩, ⟨2, 19, "top", BACKGROUND⟩] : job_list_t).map
        job_t.pid).Nodup ∧
    ∀ j ∈ ([⟨1, 10, "sleep", BACKGROUND⟩, ⟨2, 19, "top", BACKGROUND⟩] : job_list_t),
      j.pid ∈ children sys_demo.trace :=
  ⟨by decide, by decide, by decide, by decide,
    (registry_pids_distinct os_pids cmds_demo (by decide)).2 (ctl_t.stop 0) _ sys_demo
      (by decide) (by decide)⟩

theorem foreground_terminal_order_witness :
    (strvec_get ["vi"] 0 = some "vi" ∧ "vi" ∉ builtins ∧
      strvec_get ["vi"] (["vi"].length - 1) = some "vi" ∧ "vi" ≠ "&" ∧
      0 < os_demo.ret Sys.init.trace.length) ∧
    (∃ jobs' s', main_body os_demo ["vi"] [] Sys.init = some (ctl_t.next, jobs', s') ∧
      s'.trace = Sys.init.trace ++ launch_calls os_demo Sys.init.trace.length) ∧
    launch_calls os_demo 0 =
      [Event.fork 7, Event.tcsetpgrp 0 7 7, Event.waitpid 7 2 7 0, Event.tcsetpgrp 0 100 7] ∧
    (atoi (strvec_get ["fg", "1"] 1) = some 1 ∧
      job_list_get jobs_demo 1 = some ⟨2, 12, "b", STOPPED⟩) ∧
    (∃ r jobs' s', resume_job os_demo ["fg", "1"] jobs_demo 1 Sys.init = some (r, jobs', s') ∧
      s'.trace = Sys.init.trace ++
        (resume_calls os_demo Sys.init.trace.length (⟨2, 12, "b", STOPPED⟩ : job_t).pid).take
          (resume_call_count os_demo Sys.init.trace.length) ∧
      (os_demo.ret (Sys.init.trace.length + 2) ≠ -1 →
        resume_call_count os_demo Sys.init.trace.length ≠ 3)) ∧
    (resume_calls os_demo 0 12).take (resume_call_count os_demo 0) =
      [Event.tcsetpgrp 0 12 7, Event.kill 12 18 7, Event.waitpid 12 2 7 0,
       Event.tcsetpgrp 0 100 7] :=
  ⟨⟨by decide, by decide, by decide, by decide, by decide⟩,
    (foreground_terminal_order os_demo ["vi"] [] Sys.init).1 "vi" "vi" (by decide) (by decide)
      (by decide) (by decide) (by decide),
    by decide,
    ⟨by decide, by decide⟩,
    (foreground_terminal_order os_demo ["fg", "1"] jobs_demo Sys.init).2 1
      ⟨2, 12, "b", STOPPED⟩ (by decide) (by decide),
    by decide⟩

end Swish
